import Mathlib

/-!
Shallow embedding of the Bloco toy-robotics firmware (block programmer,
board relay, robot) for verification of its specification.

Sources embedded:
* `src/common/include/block_types.h` — block record layout, type catalog,
  XOR checksum.
* `src/block/main/programmer.c`     — serial stamping and the block
  encode/write / read paths.
* `src/robo/main/main.c`            — the robot's ESP-NOW receive callback
  (pairing, MAC filtering, program reassembly) and the pairing part of the
  main loop.
* `src/robo/main/executor.c`        — the block program interpreter.
* `src/robo/main/eyes.c`            — idle/sleep sub-state machine of the
  expression animator.

Machine bytes are modelled as `Nat` with explicit `% 256` / `% 65536`
where the C code can overflow.
-/

namespace Bloco

/-! ## Block type catalog (`block_types.h`) -/

def BLOCK_BEGIN : Nat := 0x01
def BLOCK_END : Nat := 0x02
def BLOCK_FORWARD : Nat := 0x10
def BLOCK_BACKWARD : Nat := 0x11
def BLOCK_TURN_RIGHT : Nat := 0x12
def BLOCK_TURN_LEFT : Nat := 0x13
def BLOCK_SHAKE : Nat := 0x14
def BLOCK_SPIN : Nat := 0x15
def BLOCK_REPEAT : Nat := 0x20
def BLOCK_END_REPEAT : Nat := 0x21
def BLOCK_IF : Nat := 0x22
def BLOCK_END_IF : Nat := 0x23
def BLOCK_BEEP : Nat := 0x30
def BLOCK_SING : Nat := 0x31
def BLOCK_PLAY_TRIANGLE : Nat := 0x32
def BLOCK_PLAY_CIRCLE : Nat := 0x33
def BLOCK_PLAY_SQUARE : Nat := 0x34
def BLOCK_WHITE_LIGHT_ON : Nat := 0x40
def BLOCK_RED_LIGHT_ON : Nat := 0x41
def BLOCK_BLUE_LIGHT_ON : Nat := 0x42
def BLOCK_WAIT_FOR_CLAP : Nat := 0x50
def BLOCK_PARAM_2 : Nat := 0x60
def BLOCK_PARAM_3 : Nat := 0x61
def BLOCK_PARAM_4 : Nat := 0x62
def BLOCK_PARAM_FOREVER : Nat := 0x63
def BLOCK_PARAM_LIGHT : Nat := 0x64
def BLOCK_PARAM_DARK : Nat := 0x65
def BLOCK_PARAM_NEAR : Nat := 0x66
def BLOCK_PARAM_FAR : Nat := 0x67
def BLOCK_PARAM_UNTIL_LIGHT : Nat := 0x68
def BLOCK_PARAM_UNTIL_DARK : Nat := 0x69
def BLOCK_PARAM_UNTIL_NEAR : Nat := 0x6A
def BLOCK_PARAM_UNTIL_FAR : Nat := 0x6B
def BLOCK_EYES_NORMAL : Nat := 0x80
def BLOCK_EYES_HAPPY : Nat := 0x81
def BLOCK_EYES_SAD : Nat := 0x82
def BLOCK_EYES_ANGRY : Nat := 0x83
def BLOCK_EYES_SURPRISED : Nat := 0x84
def BLOCK_EYES_SLEEPING : Nat := 0x85
def BLOCK_EYES_EXCITED : Nat := 0x86
def BLOCK_EYES_FOCUSED : Nat := 0x87
def BLOCK_EYES_LOOK_CENTER : Nat := 0x88
def BLOCK_EYES_LOOK_LEFT : Nat := 0x89
def BLOCK_EYES_LOOK_RIGHT : Nat := 0x8A
def BLOCK_EYES_LOOK_UP : Nat := 0x8B
def BLOCK_EYES_LOOK_DOWN : Nat := 0x8C
/-- Modelled from the spec: `executor.c` dispatches on five further
eye-expression block codes (`BLOCK_EYES_SCARED` … `BLOCK_EYES_DIZZY`)
whose `#define`s are not present in the repository's `block_types.h`;
the spec's catalog groups them with the eye-expression codes, so they
are given the next codes after `BLOCK_EYES_LOOK_DOWN` (0x8C).  No
theorem below depends on their concrete values. -/
def BLOCK_EYES_SCARED : Nat := 0x8D
def BLOCK_EYES_CRYING : Nat := 0x8E
def BLOCK_EYES_CRYING_NO_TEARS : Nat := 0x8F
def BLOCK_EYES_SWEATING : Nat := 0x90
def BLOCK_EYES_DIZZY : Nat := 0x91
def BLOCK_SENSOR_LIGHT_BULB : Nat := 0x70
def BLOCK_SENSOR_EAR : Nat := 0x71
def BLOCK_SENSOR_EYE : Nat := 0x72
def BLOCK_SENSOR_TELESCOPE : Nat := 0x73
def BLOCK_SENSOR_SOUND_MODULE : Nat := 0x74

def BLOCK_VERSION : Nat := 0x01
def BLOCK_NAME_MAX_LEN : Nat := 16
def ESPNOW_MAX_BLOCKS : Nat := 8

/-- `block_type_valid` from `block_types.h`: membership in the closed
catalog of block type codes. -/
def block_type_valid (type : Nat) : Bool :=
  type = BLOCK_BEGIN ∨ type = BLOCK_END ∨
  type = BLOCK_FORWARD ∨ type = BLOCK_BACKWARD ∨
  type = BLOCK_TURN_RIGHT ∨ type = BLOCK_TURN_LEFT ∨
  type = BLOCK_SHAKE ∨ type = BLOCK_SPIN ∨
  type = BLOCK_REPEAT ∨ type = BLOCK_END_REPEAT ∨
  type = BLOCK_IF ∨ type = BLOCK_END_IF ∨
  type = BLOCK_BEEP ∨ type = BLOCK_SING ∨
  type = BLOCK_PLAY_TRIANGLE ∨ type = BLOCK_PLAY_CIRCLE ∨ type = BLOCK_PLAY_SQUARE ∨
  type = BLOCK_WHITE_LIGHT_ON ∨ type = BLOCK_RED_LIGHT_ON ∨ type = BLOCK_BLUE_LIGHT_ON ∨
  type = BLOCK_WAIT_FOR_CLAP ∨
  type = BLOCK_PARAM_2 ∨ type = BLOCK_PARAM_3 ∨ type = BLOCK_PARAM_4 ∨
  type = BLOCK_PARAM_FOREVER ∨
  type = BLOCK_PARAM_LIGHT ∨ type = BLOCK_PARAM_DARK ∨
  type = BLOCK_PARAM_NEAR ∨ type = BLOCK_PARAM_FAR ∨
  type = BLOCK_PARAM_UNTIL_LIGHT ∨ type = BLOCK_PARAM_UNTIL_DARK ∨
  type = BLOCK_PARAM_UNTIL_NEAR ∨ type = BLOCK_PARAM_UNTIL_FAR ∨
  type = BLOCK_EYES_NORMAL ∨ type = BLOCK_EYES_HAPPY ∨
  type = BLOCK_EYES_SAD ∨ type = BLOCK_EYES_ANGRY ∨
  type = BLOCK_EYES_SURPRISED ∨ type = BLOCK_EYES_SLEEPING ∨
  type = BLOCK_EYES_EXCITED ∨ type = BLOCK_EYES_FOCUSED ∨
  type = BLOCK_EYES_LOOK_CENTER ∨ type = BLOCK_EYES_LOOK_LEFT ∨
  type = BLOCK_EYES_LOOK_RIGHT ∨ type = BLOCK_EYES_LOOK_UP ∨
  type = BLOCK_EYES_LOOK_DOWN ∨
  type = BLOCK_SENSOR_LIGHT_BULB ∨ type = BLOCK_SENSOR_EAR ∨
  type = BLOCK_SENSOR_EYE ∨ type = BLOCK_SENSOR_TELESCOPE ∨
  type = BLOCK_SENSOR_SOUND_MODULE

/-! ## Block record (`block_data_t`, 32 bytes) -/

/-- `block_data_t` from `block_types.h`: the 32-byte record stored on a
token and carried inside `BlockData` wireless messages.  Each byte field
is a `Nat` standing for one `uint8_t`; `serial` is the 4-byte serial,
`reserved` the 6 reserved bytes and `name` the 16 name bytes. -/
structure BlockData where
  type : Nat
  subtype : Nat
  param1 : Nat
  param2 : Nat
  serial : List Nat
  version : Nat
  checksum : Nat
  reserved : List Nat
  name : List Nat
  deriving DecidableEq, Repr

/-- The all-zero record produced by `block_data_t blk = {0};`. -/
def zeroBlock : BlockData :=
  { type := 0, subtype := 0, param1 := 0, param2 := 0
    serial := [0, 0, 0, 0], version := 0, checksum := 0
    reserved := [0, 0, 0, 0, 0, 0]
    name := List.replicate 16 0 }

/-- Raw bytes 0x00–0x08 of a `block_data_t` in layout order: type,
subtype, param1, param2, the four serial bytes, version. -/
def bytes0to8 (b : BlockData) : List Nat :=
  [b.type, b.subtype, b.param1, b.param2] ++ b.serial ++ [b.version]

/-- `block_calc_checksum` from `block_types.h`: XOR of raw bytes 0x00–0x08
(the checksum byte itself, at offset 0x09, is not included). -/
def block_calc_checksum (b : BlockData) : Nat :=
  (bytes0to8 b).foldl Nat.xor 0

/-! ## Programmer serial stamping (`src/block/main/programmer.c`) -/

/-- State of the programmer process: the fixed 2-byte origin prefix taken
from the device MAC (`mac_bytes`) and the 16-bit `serial_counter`. -/
structure ProgState where
  macByte0 : Nat
  macByte1 : Nat
  serialCounter : Nat
  deriving DecidableEq, Repr

/-- `programmer_init`: records MAC bytes 4 and 5 as the serial prefix and
resets the counter to 0.  `mac` is the device's 6-byte base MAC. -/
def programmer_init (mac : List Nat) : ProgState :=
  { macByte0 := mac.getD 4 0, macByte1 := mac.getD 5 0, serialCounter := 0 }

/-- `generate_serial`: emits the 4 serial bytes (origin prefix then the
big-endian 16-bit counter) and post-increments the `uint16_t` counter. -/
def generate_serial (st : ProgState) : List Nat × ProgState :=
  ([st.macByte0, st.macByte1, (st.serialCounter >>> 8) % 256, st.serialCounter % 256],
   { st with serialCounter := (st.serialCounter + 1) % 65536 })

/-- The `name` field as filled by `programmer_write_block`:
`strncpy(blk.name, name, 15)` into a zeroed 16-byte buffer, then
`blk.name[15] = 0`.  `name` is the source string's bytes (no interior
zero bytes). -/
def encodeName (name : List Nat) : List Nat :=
  (name.take 15 ++ List.replicate 16 0).take 16

/-- The in-memory record built by `programmer_write_block` before it is
written to the EEPROM: field assignments on a zeroed record, a fresh
serial, the fixed version tag and the checksum over bytes 0–8.  Returns
`none` when `block_type_valid` rejects the type (the C function returns
`ESP_ERR_INVALID_ARG`), otherwise the record and the advanced programmer
state. -/
def programmer_write_block (st : ProgState) (type subtype param1 param2 : Nat)
    (name : List Nat) : Option (BlockData × ProgState) :=
  if ¬ block_type_valid type then none
  else
    let s := generate_serial st
    let blk : BlockData :=
      { zeroBlock with
        type := type, subtype := subtype, param1 := param1, param2 := param2
        serial := s.1, version := BLOCK_VERSION, name := encodeName name }
    some ({ blk with checksum := block_calc_checksum blk }, s.2)

/-- The checksum test of `programmer_read_block`: a warning is logged
exactly when the stored checksum byte differs from the recomputed XOR of
bytes 0–8. -/
def read_flags_mismatch (b : BlockData) : Bool :=
  b.checksum ≠ block_calc_checksum b

/-! ## Robot receive callback (`src/robo/main/main.c`, `espnow_recv_cb`) -/

/-- A 6-byte ESP-NOW address, compared bytewise (`memcmp`). -/
abbrev Mac := List Nat

/-- Wireless messages after the per-discriminant length check of
`espnow_recv_cb` (a too-short frame is dropped before reaching the
branch it would select). -/
inductive Msg where
  | programStart (count : Nat)
  | blockData (index : Nat) (block : BlockData)
  | programEnd
  | programAck (count : Nat)
  | pairRequest (mac : Mac)
  | pairAck (mac : Mac)
  | unpair
  deriving DecidableEq, Repr

/-- Externally visible actions of the receive callback. -/
inductive Out where
  | addPeer (m : Mac)
  | send (dest : Mac) (msg : Msg)
  | signalExecutor
  deriving DecidableEq, Repr

/-- The robot's mutable state touched by `espnow_recv_cb` and the pairing
part of `app_main`: the volatile paired MAC (`paired_mac` +
`has_paired_mac` as an `Option`), its persisted NVS copy, the pairing
flags, the reassembly buffer (`rx_blocks`, 8 slots), and the pending
executor hand-off (`exec_blocks`/`exec_count`).  `peers` is the ESP-NOW
peer registry consulted by `esp_now_get_peer`/`esp_now_add_peer`. -/
structure RxState where
  pairedMac : Option Mac
  nvsPairedMac : Option Mac
  pairingActive : Bool
  pairingSuccess : Bool
  rxBlocks : List BlockData
  rxCount : Nat
  rxExpected : Nat
  rxInProgress : Bool
  execBlocks : List BlockData
  execCount : Nat
  peers : List Mac
  deriving DecidableEq, Repr

/-- `esp_now_add_peer`: registers an address, a no-op when it is already
registered. -/
def insertPeer (peers : List Mac) (m : Mac) : List Mac :=
  if m ∈ peers then peers else m :: peers

/-- `espnow_recv_cb` from `src/robo/main/main.c`: one parsed message
`msg` from source address `src`, processed against state `st`; `myMac`
is the robot's own station MAC (read by `esp_read_mac` for the pair
ack).  Returns the new state and the emitted actions in order. -/
def espnow_recv_cb (myMac : Mac) (st : RxState) (src : Mac) (msg : Msg) :
    RxState × List Out :=
  match msg with
  | .pairRequest reqMac =>
      -- Handled before MAC filtering, but only while pairing is active.
      if st.pairingActive then
        ({ st with pairedMac := some reqMac
                   peers := insertPeer st.peers reqMac
                   pairingSuccess := true },
         [Out.addPeer reqMac, Out.send reqMac (Msg.pairAck myMac)])
      else (st, [])
  | .unpair =>
      match st.pairedMac with
      | some pm =>
          if src = pm then
            ({ st with pairedMac := none, nvsPairedMac := none }, [])
          else (st, [])
      | none =>
          -- Falls through to MAC filtering; either way nothing changes:
          -- unpaired + not pairing returns early, and while pairing the
          -- switch default only logs.
          (st, [])
  | _ =>
      -- MAC filtering: outside pairing, only the paired board is heard.
      if ¬ st.pairingActive ∧
         (st.pairedMac = none ∨ some src ≠ st.pairedMac) then
        (st, [])
      else
        match msg with
        | .programStart count =>
            let expected := if count > ESPNOW_MAX_BLOCKS then ESPNOW_MAX_BLOCKS else count
            ({ st with rxExpected := expected, rxCount := 0, rxInProgress := true }, [])
        | .blockData idx blk =>
            if ¬ st.rxInProgress then (st, [])
            else if idx < ESPNOW_MAX_BLOCKS then
              ({ st with rxBlocks := st.rxBlocks.set idx blk
                         rxCount := (st.rxCount + 1) % 256 }, [])
            else (st, [])
        | .programEnd =>
            if ¬ st.rxInProgress then (st, [])
            else
              let st1 := { st with rxInProgress := false }
              if st.rxCount ≥ st.rxExpected then
                let peerOuts : List Out :=
                  if src ∈ st.peers then [] else [Out.addPeer src]
                ({ st1 with peers := insertPeer st.peers src
                            execBlocks := st.rxBlocks.take st.rxExpected
                            execCount := st.rxExpected },
                 peerOuts ++ [Out.send src (Msg.programAck st.rxExpected),
                              Out.signalExecutor])
              else (st1, [])
        | _ => (st, [])

/-- The pairing-success check of the `app_main` loop: when the receive
callback has flagged success during an active pairing cycle, the loop
leaves pairing mode and persists the recorded peer (`save_paired_mac`). -/
def pairing_check (st : RxState) : RxState :=
  if st.pairingActive ∧ st.pairingSuccess then
    { st with pairingActive := false, nvsPairedMac := st.pairedMac }
  else st

/-- Processes a list of `(source, message)` frames in order, accumulating
the actions of every callback invocation. -/
def runMsgs (myMac : Mac) (st : RxState) : List (Mac × Msg) → RxState × List Out
  | [] => (st, [])
  | (src, m) :: rest =>
      let r := espnow_recv_cb myMac st src m
      let r2 := runMsgs myMac r.1 rest
      (r2.1, r.2 ++ r2.2)

/-- The robot's idle boot state with a given volatile/persisted peer:
no pairing cycle, empty reassembly buffer, no pending program. -/
def initRx (paired : Option Mac) : RxState :=
  { pairedMac := paired, nvsPairedMac := paired
    pairingActive := false, pairingSuccess := false
    rxBlocks := List.replicate 8 zeroBlock
    rxCount := 0, rxExpected := 0, rxInProgress := false
    execBlocks := [], execCount := 0, peers := [] }

/-! ## Program executor (`src/robo/main/executor.c`) -/

/-- `eyes_expression_t` codes from `eyes.h`. -/
def EYES_NORMAL : Nat := 0
def EYES_HAPPY : Nat := 1
def EYES_SAD : Nat := 2
def EYES_ANGRY : Nat := 3
def EYES_SURPRISED : Nat := 4
def EYES_SLEEPING : Nat := 5
def EYES_EXCITED : Nat := 6
def EYES_FOCUSED : Nat := 7
def EYES_SCARED : Nat := 8
def EYES_CRYING : Nat := 9
def EYES_CRYING_NO_TEARS : Nat := 10
def EYES_SWEATING : Nat := 11
def EYES_DIZZY : Nat := 12
def EYES_EXPRESSION_COUNT : Nat := 13

/-- `eyes_look_dir_t` codes from `eyes.h`. -/
def EYES_CENTER : Nat := 0
def EYES_LEFT : Nat := 1
def EYES_RIGHT : Nat := 2
def EYES_UP : Nat := 3
def EYES_DOWN : Nat := 4

def MOTOR_DEFAULT_SPEED : Nat := 200
def DEFAULT_MOVE_MS : Nat := 1000
def SPIN_MS : Nat := 2000
def SHAKE_CYCLE_MS : Nat := 300
def SHAKE_CYCLES : Nat := 4
def BEEP_MS : Nat := 200

/-- Observable actuator/animator effects of one executor run, in order:
expression and look-direction cues, motor commands with their speed, and
`vTaskDelay` sleeps in milliseconds. -/
inductive Ev where
  | expr (e : Nat)
  | look (d : Nat)
  | forwardOn (speed : Nat)
  | backwardOn (speed : Nat)
  | turnLeftOn (speed : Nat)
  | turnRightOn (speed : Nat)
  | spinOn (speed : Nat)
  | motorStop
  | sleep (ms : Nat)
  deriving DecidableEq, Repr

/-- `blocks[i].type` — the executor reads the array it is handed, whose
length the caller guarantees to be `count`. -/
def typeAt (blocks : List BlockData) (i : Nat) : Nat :=
  (blocks.getD i zeroBlock).type

/-- `get_param_value` from `executor.c`: looks at `blocks[pc+1]`; a
recognized repeat-count parameter is consumed (the returned program
counter moves onto it) and yields 2/3/4 or the forever sentinel −1;
otherwise the default count 1 with `pc` unchanged. -/
def get_param_value (blocks : List BlockData) (count pc : Nat) : Int × Nat :=
  let next := pc + 1
  if next ≥ count then (1, pc)
  else
    let t := typeAt blocks next
    if t = BLOCK_PARAM_2 then (2, next)
    else if t = BLOCK_PARAM_3 then (3, next)
    else if t = BLOCK_PARAM_4 then (4, next)
    else if t = BLOCK_PARAM_FOREVER then (-1, next)
    else (1, pc)

/-- `do_move` from `executor.c`: a negative (forever) repeat drives for
30 s then stops; otherwise each repetition drives ~1 s, stops, and
pauses 100 ms between repetitions. -/
def do_move (drive : Nat → Ev) (rep : Int) : List Ev :=
  if rep < 0 then
    [drive MOTOR_DEFAULT_SPEED, Ev.sleep 30000, Ev.motorStop]
  else
    (List.range rep.toNat).flatMap fun i =>
      [drive MOTOR_DEFAULT_SPEED, Ev.sleep DEFAULT_MOVE_MS, Ev.motorStop] ++
      (if i < rep.toNat - 1 then [Ev.sleep 100] else [])

/-- The depth-matched forward scan of the `BLOCK_REPEAT` case: starting
at `s` with the current nesting `depth` (the caller starts it at 1),
walks to the first `END_REPEAT` that brings the depth to 0, falling back
to `count` when none matches. -/
def scanEnd (blocks : List BlockData) (count : Nat) (s : Nat) (depth : Int) : Nat :=
  if s < count then
    -- the two `if`s of the C loop body are on distinct type codes, so at
    -- most one fires per position
    if typeAt blocks s = BLOCK_END_REPEAT then
      if depth - 1 = 0 then s else scanEnd blocks count (s + 1) (depth - 1)
    else if typeAt blocks s = BLOCK_REPEAT then
      scanEnd blocks count (s + 1) (depth + 1)
    else scanEnd blocks count (s + 1) depth
  else count
termination_by count - s

/-- Result of dispatching one block at `pc`: `halt` for the early-exit
`BLOCK_END`, `cont` for everything that just advances (carrying the
emitted effects and the next `pc`), `loop` for `BLOCK_REPEAT` (carrying
the body range and the resolved iteration count). -/
inductive StepRes where
  | halt (evs : List Ev)
  | cont (evs : List Ev) (next : Nat)
  | loop (startPc endPc iters : Nat)
  deriving DecidableEq, Repr

/-- The effect list of one `executor_run` dispatch at `pc`: the body of
each `case` of the C switch, in source order.  Movement cases use the
repeat count resolved by `get_param_value`. -/
def stepEvents (blocks : List BlockData) (count pc : Nat) : List Ev :=
  if typeAt blocks pc = BLOCK_BEGIN then
    [Ev.expr EYES_FOCUSED]
  else if typeAt blocks pc = BLOCK_END then
    [Ev.motorStop, Ev.expr EYES_NORMAL, Ev.look EYES_CENTER]
  else if typeAt blocks pc = BLOCK_FORWARD then
    [Ev.expr EYES_FOCUSED, Ev.look EYES_UP] ++
      do_move Ev.forwardOn (get_param_value blocks count pc).1
  else if typeAt blocks pc = BLOCK_BACKWARD then
    [Ev.expr EYES_FOCUSED, Ev.look EYES_DOWN] ++
      do_move Ev.backwardOn (get_param_value blocks count pc).1
  else if typeAt blocks pc = BLOCK_TURN_RIGHT then
    [Ev.look EYES_RIGHT] ++ do_move Ev.turnRightOn (get_param_value blocks count pc).1
  else if typeAt blocks pc = BLOCK_TURN_LEFT then
    [Ev.look EYES_LEFT] ++ do_move Ev.turnLeftOn (get_param_value blocks count pc).1
  else if typeAt blocks pc = BLOCK_SHAKE then
    [Ev.expr EYES_EXCITED] ++
      ((List.range SHAKE_CYCLES).flatMap fun _ =>
        [Ev.turnLeftOn MOTOR_DEFAULT_SPEED, Ev.sleep SHAKE_CYCLE_MS,
         Ev.turnRightOn MOTOR_DEFAULT_SPEED, Ev.sleep SHAKE_CYCLE_MS]) ++
      [Ev.motorStop]
  else if typeAt blocks pc = BLOCK_SPIN then
    [Ev.expr EYES_SURPRISED, Ev.spinOn MOTOR_DEFAULT_SPEED, Ev.sleep SPIN_MS, Ev.motorStop]
  else if typeAt blocks pc = BLOCK_REPEAT then
    []
  else if typeAt blocks pc = BLOCK_END_REPEAT then
    []
  else if typeAt blocks pc = BLOCK_BEEP then
    [Ev.expr EYES_HAPPY, Ev.sleep BEEP_MS]
  else if typeAt blocks pc = BLOCK_SING ∨ typeAt blocks pc = BLOCK_PLAY_TRIANGLE ∨
          typeAt blocks pc = BLOCK_PLAY_CIRCLE ∨ typeAt blocks pc = BLOCK_PLAY_SQUARE then
    [Ev.expr EYES_HAPPY, Ev.sleep 500]
  else if typeAt blocks pc = BLOCK_WHITE_LIGHT_ON ∨ typeAt blocks pc = BLOCK_RED_LIGHT_ON ∨
          typeAt blocks pc = BLOCK_BLUE_LIGHT_ON then
    []
  else if typeAt blocks pc = BLOCK_WAIT_FOR_CLAP then
    [Ev.expr EYES_SURPRISED, Ev.sleep 2000]
  else if typeAt blocks pc = BLOCK_IF ∨ typeAt blocks pc = BLOCK_END_IF then
    []
  else if typeAt blocks pc = BLOCK_EYES_NORMAL then
    [Ev.expr EYES_NORMAL, Ev.sleep DEFAULT_MOVE_MS]
  else if typeAt blocks pc = BLOCK_EYES_HAPPY then
    [Ev.expr EYES_HAPPY, Ev.sleep DEFAULT_MOVE_MS]
  else if typeAt blocks pc = BLOCK_EYES_SAD then
    [Ev.expr EYES_SAD, Ev.sleep DEFAULT_MOVE_MS]
  else if typeAt blocks pc = BLOCK_EYES_ANGRY then
    [Ev.expr EYES_ANGRY, Ev.sleep DEFAULT_MOVE_MS]
  else if typeAt blocks pc = BLOCK_EYES_SURPRISED then
    [Ev.expr EYES_SURPRISED, Ev.sleep DEFAULT_MOVE_MS]
  else if typeAt blocks pc = BLOCK_EYES_SLEEPING then
    [Ev.expr EYES_SLEEPING, Ev.sleep DEFAULT_MOVE_MS]
  else if typeAt blocks pc = BLOCK_EYES_EXCITED then
    [Ev.expr EYES_EXCITED, Ev.sleep DEFAULT_MOVE_MS]
  else if typeAt blocks pc = BLOCK_EYES_FOCUSED then
    [Ev.expr EYES_FOCUSED, Ev.sleep DEFAULT_MOVE_MS]
  else if typeAt blocks pc = BLOCK_EYES_SCARED then
    [Ev.expr EYES_SCARED, Ev.sleep DEFAULT_MOVE_MS]
  else if typeAt blocks pc = BLOCK_EYES_CRYING then
    [Ev.expr EYES_CRYING, Ev.sleep DEFAULT_MOVE_MS]
  else if typeAt blocks pc = BLOCK_EYES_CRYING_NO_TEARS then
    [Ev.expr EYES_CRYING_NO_TEARS, Ev.sleep DEFAULT_MOVE_MS]
  else if typeAt blocks pc = BLOCK_EYES_SWEATING then
    [Ev.expr EYES_SWEATING, Ev.sleep DEFAULT_MOVE_MS]
  else if typeAt blocks pc = BLOCK_EYES_DIZZY then
    [Ev.expr EYES_DIZZY, Ev.sleep DEFAULT_MOVE_MS]
  else if typeAt blocks pc = BLOCK_EYES_LOOK_CENTER then
    [Ev.look EYES_CENTER, Ev.sleep DEFAULT_MOVE_MS]
  else if typeAt blocks pc = BLOCK_EYES_LOOK_LEFT then
    [Ev.look EYES_LEFT, Ev.sleep DEFAULT_MOVE_MS]
  else if typeAt blocks pc = BLOCK_EYES_LOOK_RIGHT then
    [Ev.look EYES_RIGHT, Ev.sleep DEFAULT_MOVE_MS]
  else if typeAt blocks pc = BLOCK_EYES_LOOK_UP then
    [Ev.look EYES_UP, Ev.sleep DEFAULT_MOVE_MS]
  else if typeAt blocks pc = BLOCK_EYES_LOOK_DOWN then
    [Ev.look EYES_DOWN, Ev.sleep DEFAULT_MOVE_MS]
  else
    -- standalone parameters, sensor placeholders and unknown types are
    -- only logged and skipped
    []

/-- Whether the switch case at this type consumes a following parameter
block via `get_param_value` and so advances `pc` by what it consumed
(the four movement cases). -/
def consumesParam (t : Nat) : Bool :=
  t = BLOCK_FORWARD ∨ t = BLOCK_BACKWARD ∨ t = BLOCK_TURN_RIGHT ∨ t = BLOCK_TURN_LEFT

/-- One iteration of the `executor_run` dispatch switch at `pc < count`,
split into control shape (everything except the recursive body execution
of `BLOCK_REPEAT`) and the effects `stepEvents`: `BLOCK_END` halts
(early return), `BLOCK_REPEAT` yields the loop range found by `scanEnd`
and the resolved iteration count, the movement cases advance past the
parameter block they consumed, every other case advances by one. -/
def execStep (blocks : List BlockData) (count pc : Nat) : StepRes :=
  if typeAt blocks pc = BLOCK_END then
    .halt (stepEvents blocks count pc)
  else if typeAt blocks pc = BLOCK_REPEAT then
    .loop ((get_param_value blocks count pc).2 + 1)
      (scanEnd blocks count ((get_param_value blocks count pc).2 + 1) 1)
      (if (get_param_value blocks count pc).1 < 0 then 1000
       else (get_param_value blocks count pc).1.toNat)
  else if consumesParam (typeAt blocks pc) then
    .cont (stepEvents blocks count pc) ((get_param_value blocks count pc).2 + 1)
  else
    .cont (stepEvents blocks count pc) (pc + 1)

/-- `get_param_value` either leaves `pc` alone or moves it onto the
consumed parameter block at `pc + 1`, which then lies inside the
program. -/
theorem get_param_value_snd (blocks : List BlockData) (count pc : Nat) :
    (get_param_value blocks count pc).2 = pc ∨
    ((get_param_value blocks count pc).2 = pc + 1 ∧ pc + 1 < count) := by
  simp only [get_param_value]
  repeat' split
  all_goals simp_all

/-- The depth-matched scan never points past the end of the program. -/
theorem scanEnd_le (blocks : List BlockData) (count s : Nat) (d : Int) :
    scanEnd blocks count s d ≤ count := by
  rw [scanEnd]
  split
  next hlt =>
    split
    · split
      · omega
      · exact scanEnd_le blocks count (s + 1) _
    · split
      · exact scanEnd_le blocks count (s + 1) _
      · exact scanEnd_le blocks count (s + 1) _
  next => exact Nat.le_refl _
termination_by count - s

/-- The depth-matched scan never moves backwards from its start. -/
theorem scanEnd_ge (blocks : List BlockData) (count s : Nat) (d : Int)
    (h : s ≤ count) : s ≤ scanEnd blocks count s d := by
  rw [scanEnd]
  split
  next hlt =>
    split
    · split
      · exact Nat.le_refl _
      · exact Nat.le_trans (Nat.le_succ s) (scanEnd_ge blocks count (s + 1) _ hlt)
    · split
      · exact Nat.le_trans (Nat.le_succ s) (scanEnd_ge blocks count (s + 1) _ hlt)
      · exact Nat.le_trans (Nat.le_succ s) (scanEnd_ge blocks count (s + 1) _ hlt)
  next => omega
termination_by count - s

/-- Every `cont` dispatch strictly advances the program counter. -/
theorem execStep_cont_lt (blocks : List BlockData) (count pc : Nat)
    (evs : List Ev) (nx : Nat) (h : execStep blocks count pc = .cont evs nx) :
    pc < nx := by
  have hp := get_param_value_snd blocks count pc
  unfold execStep at h
  repeat' split at h
  all_goals cases h
  all_goals omega

/-- A `loop` dispatch at a valid `pc` yields a body range inside the
program and strictly after `pc`. -/
theorem execStep_loop_bounds (blocks : List BlockData) (count pc s e i : Nat)
    (hpc : pc < count) (h : execStep blocks count pc = .loop s e i) :
    pc < s ∧ s ≤ count ∧ s ≤ e ∧ e ≤ count := by
  have hp := get_param_value_snd blocks count pc
  unfold execStep at h
  repeat' split at h
  all_goals cases h
  all_goals
    exact have hs : (get_param_value blocks count pc).2 + 1 ≤ count := by omega
      ⟨by omega, hs, scanEnd_ge blocks count _ 1 hs, scanEnd_le blocks count _ 1⟩

/-- `executor_run` from `executor.c`, as the effect trace it produces
from program counter `pc` on: the while loop is the recursion on `pc`, a
`BLOCK_REPEAT` executes the sub-range strictly between itself and its
matching `END_REPEAT` as a recursive run (the C recursion re-runs the
same pure body each iteration, hence `List.replicate`), and falling off
the end — like `BLOCK_END` — stops the motors and resets the eyes. -/
def execRun (blocks : List BlockData) (count pc : Nat) : List Ev :=
  if hpc : pc < count then
    match hs : execStep blocks count pc with
    | .halt evs => evs
    | .cont evs next => evs ++ execRun blocks count next
    | .loop startPc endPc iters =>
        let bodyLen := endPc - startPc
        let bodyEvs :=
          if 0 < bodyLen then execRun ((blocks.drop startPc).take bodyLen) bodyLen 0
          else []
        (List.replicate iters bodyEvs).flatten ++ execRun blocks count (endPc + 1)
  else [Ev.motorStop, Ev.expr EYES_NORMAL, Ev.look EYES_CENTER]
termination_by (count, count - pc)
decreasing_by
  · have h1 := execStep_cont_lt blocks count pc evs next hs
    exact Prod.Lex.right count (by omega)
  · have h1 := execStep_loop_bounds blocks count pc startPc endPc iters hpc hs
    exact Prod.Lex.left _ _ (by omega)
  · have h1 := execStep_loop_bounds blocks count pc startPc endPc iters hpc hs
    exact Prod.Lex.right count (by omega)

/-- `executor_run` proper: a run starts at `pc = 0`. -/
def executor_run (blocks : List BlockData) (count : Nat) : List Ev :=
  execRun blocks count 0

/-- `executor_run` with an explicit recursion budget: every C call frame
(both the while-loop continuation and the recursive body execution)
consumes one unit, and exhaustion yields `none`.  Used to state that the
C recursion terminates: some finite budget suffices and returns the same
trace as `execRun`. -/
def execRunF : Nat → List BlockData → Nat → Nat → Option (List Ev)
  | 0, _, _, _ => none
  | fuel + 1, blocks, count, pc =>
    if pc < count then
      match execStep blocks count pc with
      | .halt evs => some evs
      | .cont evs next => (execRunF fuel blocks count next).map (fun r => evs ++ r)
      | .loop startPc endPc iters =>
          (if 0 < endPc - startPc then
             execRunF fuel ((blocks.drop startPc).take (endPc - startPc)) (endPc - startPc) 0
           else some []).bind fun bodyEvs =>
            (execRunF fuel blocks count (endPc + 1)).map fun rest =>
              (List.replicate iters bodyEvs).flatten ++ rest
    else some [Ev.motorStop, Ev.expr EYES_NORMAL, Ev.look EYES_CENTER]

/-- `executor_run` with an explicit recursion budget and the `uint8_t`
program-counter arithmetic kept faithful: the post-switch `pc++` wraps
modulo 256.  The wrap only ever fires when `pc` was left at 255, which
requires `count = 255` and an end-of-program scan fallback; for every
`count ≤ 254` this agrees with `execRunF`. -/
def execRunW : Nat → List BlockData → Nat → Nat → Option (List Ev)
  | 0, _, _, _ => none
  | fuel + 1, blocks, count, pc =>
    if pc < count then
      match execStep blocks count pc with
      | .halt evs => some evs
      | .cont evs next =>
          (execRunW fuel blocks count (next % 256)).map (fun r => evs ++ r)
      | .loop startPc endPc iters =>
          (if 0 < endPc - startPc then
             execRunW fuel ((blocks.drop startPc).take (endPc - startPc))
               (endPc - startPc) 0
           else some []).bind fun bodyEvs =>
            (execRunW fuel blocks count ((endPc + 1) % 256)).map fun rest =>
              (List.replicate iters bodyEvs).flatten ++ rest
    else some [Ev.motorStop, Ev.expr EYES_NORMAL, Ev.look EYES_CENTER]

/-- A 255-block program of nothing but `Repeat` heads: at `count = 255`
the scan fallback leaves `pc = 255` and the `uint8_t` increment wraps to
0 instead of exiting the while loop. -/
def wrapProg : List BlockData :=
  List.replicate 255 { zeroBlock with type := BLOCK_REPEAT }

/-- Number of `BLOCK_REPEAT` blocks at positions `s ≤ k < j`. -/
def repeatsIn (blocks : List BlockData) (s j : Nat) : Nat :=
  (List.range' s (j - s)).countP fun k => typeAt blocks k = BLOCK_REPEAT

/-- Number of `BLOCK_END_REPEAT` blocks at positions `s ≤ k < j`. -/
def endsIn (blocks : List BlockData) (s j : Nat) : Nat :=
  (List.range' s (j - s)).countP fun k => typeAt blocks k = BLOCK_END_REPEAT

/-- Specification-side notion of the correctly nested match: position
`j` closes the repeat whose body starts at `s` when it holds an
`END_REPEAT` and the interior `[s, j)` is balanced (as many `REPEAT`s as
`END_REPEAT`s), generalized to an arbitrary entry depth `d` (the
executor enters the scan at `d = 1`). -/
def nestMatchD (blocks : List BlockData) (d : Int) (s j : Nat) : Prop :=
  typeAt blocks j = BLOCK_END_REPEAT ∧
  d + (repeatsIn blocks s j : Int) - (endsIn blocks s j : Int) = 1

/-- The correctly nested match at the executor's entry depth:
`END_REPEAT` with a balanced interior. -/
def nestMatch (blocks : List BlockData) (s j : Nat) : Prop :=
  typeAt blocks j = BLOCK_END_REPEAT ∧ repeatsIn blocks s j = endsIn blocks s j

/-! ## Eyes idle/sleep sub-machine (`src/robo/main/eyes.c`) -/

def TRANSITION_MS : Nat := 250
def FRAME_MS : Nat := 1000 / 30
def EYES_IDLE_TIMEOUT_MS : Nat := 60 * 1000

/-- The animator state touched by the idle/sleep sub-machine and the
public setters: the active expression and look direction, the idle
timer, the sleeping flag, the remaining transition window, and the
keyframe pair last loaded by `set_target_from_expression` (standing for
the full `s_target` shape record it computes from `s_expr`/`s_look`). -/
structure EyesState where
  expr : Nat
  look : Nat
  idleTimer : Nat
  isSleeping : Bool
  transitionRemaining : Nat
  targetKey : Nat × Nat
  deriving DecidableEq, Repr

/-- `set_target_from_expression`: reloads the target shape from the
active expression and look direction. -/
def set_target_from_expression (st : EyesState) : EyesState :=
  { st with targetKey := (st.expr, st.look) }

/-- `advance_idle` from `eyes.c`: while awake, accumulates `dt_ms`; on
reaching the idle timeout it switches itself to the sleeping expression
with the slow 500 ms transition window. -/
def advance_idle (dt : Nat) (st : EyesState) : EyesState :=
  if st.isSleeping then st
  else
    let st1 := { st with idleTimer := st.idleTimer + dt }
    if st1.idleTimer ≥ EYES_IDLE_TIMEOUT_MS then
      { set_target_from_expression
          { st1 with isSleeping := true, expr := EYES_SLEEPING, look := EYES_CENTER } with
        transitionRemaining := 500 }
    else st1

/-- `eyes_set_expression` from `eyes.c`: rejects out-of-range codes, else
resets the idle timer, clears the sleeping flag, retargets, and restarts
the normal 250 ms transition window. -/
def eyes_set_expression (e : Nat) (st : EyesState) : EyesState :=
  if e ≥ EYES_EXPRESSION_COUNT then st
  else
    { set_target_from_expression
        { st with idleTimer := 0, isSleeping := false, expr := e } with
      transitionRemaining := TRANSITION_MS }

/-- `eyes_set_look_direction` from `eyes.c` (pupil-style build):
retargets the look direction and restarts the transition window; note it
does not touch the idle timer or the sleeping flag. -/
def eyes_set_look_direction (d : Nat) (st : EyesState) : EyesState :=
  { set_target_from_expression { st with look := d } with
    transitionRemaining := TRANSITION_MS }

/-- The programmer state after `n` serial-stamping calls. -/
def serialState (st0 : ProgState) : Nat → ProgState
  | 0 => st0
  | n + 1 => (generate_serial (serialState st0 n)).2

/-- The serial bytes stamped by the `n`-th call (0-based). -/
def nthSerial (st0 : ProgState) (n : Nat) : List Nat :=
  (generate_serial (serialState st0 n)).1

/-- The 16-bit counter part of a 4-byte serial (bytes 2–3, big-endian). -/
def serialCounterPart (s : List Nat) : Nat :=
  s.getD 2 0 * 256 + s.getD 3 0

/-- What the executor's scan is expected to return from position `s` at
entry depth `d`: either the end-of-program fallback with no correctly
nested closer anywhere in `[s, count)`, or the first such closer. -/
def scanChar (blocks : List BlockData) (count s : Nat) (d : Int) (e : Nat) : Prop :=
  (e = count ∧ ∀ j, s ≤ j → j < count → ¬ nestMatchD blocks d s j) ∨
  (e < count ∧ nestMatchD blocks d s e ∧
    ∀ j, s ≤ j → j < e → ¬ nestMatchD blocks d s j)

/-- The spec's nesting example: `Repeat, Forward, Repeat, Beep,
EndRepeat, EndRepeat` — the outer `Repeat` must match the second
`EndRepeat` (index 5). -/
def exampleNest : List BlockData :=
  [{ zeroBlock with type := BLOCK_REPEAT }, { zeroBlock with type := BLOCK_FORWARD },
   { zeroBlock with type := BLOCK_REPEAT }, { zeroBlock with type := BLOCK_BEEP },
   { zeroBlock with type := BLOCK_END_REPEAT }, { zeroBlock with type := BLOCK_END_REPEAT }]

/-- The spec's lookahead example: `Forward` immediately followed by
`Param3`. -/
def exampleFwd : List BlockData :=
  [{ zeroBlock with type := BLOCK_FORWARD }, { zeroBlock with type := BLOCK_PARAM_3 }]

/-! ## Theorems -/

/-- After `n` stamping calls from boot, the origin prefix is untouched
and the 16-bit counter equals `n mod 2^16`. -/
theorem serialState_init (mac : List Nat) (n : Nat) :
    (serialState (programmer_init mac) n).macByte0 = mac.getD 4 0 ∧
    (serialState (programmer_init mac) n).macByte1 = mac.getD 5 0 ∧
    (serialState (programmer_init mac) n).serialCounter = n % 65536 := by
  induction n with
  | zero => simp [serialState, programmer_init]
  | succ n ih =>
    obtain ⟨h0, h1, h2⟩ := ih
    simp only [serialState, generate_serial]
    refine ⟨h0, h1, ?_⟩
    rw [h2]
    omega

/-- C7: consecutive encode calls from the same origin stamp serials with
a fixed 2-byte origin prefix and a 2-byte counter that starts at 0 and
increments by one per call modulo 65536 (hence strictly increasing
mod 65536); and every successful `programmer_write_block` advances the
process state by exactly one `generate_serial` step, stamping that
serial into the written record. -/
theorem serial_monotonic (mac : List Nat) (n : Nat)
    (st : ProgState) (type subtype param1 param2 : Nat) (name : List Nat)
    (b : BlockData) (st' : ProgState)
    (henc : programmer_write_block st type subtype param1 param2 name = some (b, st')) :
    (nthSerial (programmer_init mac) n).take 2 = [mac.getD 4 0, mac.getD 5 0] ∧
    serialCounterPart (nthSerial (programmer_init mac) n) = n % 65536 ∧
    serialCounterPart (nthSerial (programmer_init mac) (n + 1)) =
      (serialCounterPart (nthSerial (programmer_init mac) n) + 1) % 65536 ∧
    b.serial = (generate_serial st).1 ∧ st' = (generate_serial st).2 := by
  obtain ⟨h0, h1, h2⟩ := serialState_init mac n
  obtain ⟨g0, g1, g2⟩ := serialState_init mac (n + 1)
  have hcp : ∀ m : Nat, serialCounterPart
      [mac.getD 4 0, mac.getD 5 0, (m % 65536) >>> 8 % 256, m % 65536 % 256] = m % 65536 := by
    intro m
    simp only [serialCounterPart, List.getD, Nat.shiftRight_eq_div_pow]
    simp
    omega
  refine ⟨?_, ?_, ?_, ?_, ?_⟩
  · simp [nthSerial, generate_serial, h0, h1]
  · simp only [nthSerial, generate_serial, h0, h1, h2]
    exact hcp n
  · simp only [nthSerial, generate_serial, h0, h1, h2, g0, g1, g2]
    rw [hcp n, hcp (n + 1)]
    omega
  · simp only [programmer_write_block] at henc
    split at henc
    · cases henc
    · cases henc; rfl
  · simp only [programmer_write_block] at henc
    split at henc
    · cases henc
    · cases henc; rfl

/-- Witness for the serial law at a concrete boot MAC and a concrete
successful encode call. -/
theorem serial_monotonic_witness :
    (nthSerial (programmer_init [10, 11, 12, 13, 14, 15]) 0).take 2 =
      [([10, 11, 12, 13, 14, 15] : List Nat).getD 4 0,
       ([10, 11, 12, 13, 14, 15] : List Nat).getD 5 0] ∧
    serialCounterPart (nthSerial (programmer_init [10, 11, 12, 13, 14, 15]) 0) = 0 % 65536 ∧
    serialCounterPart (nthSerial (programmer_init [10, 11, 12, 13, 14, 15]) (0 + 1)) =
      (serialCounterPart (nthSerial (programmer_init [10, 11, 12, 13, 14, 15]) 0) + 1) % 65536 ∧
    ({ zeroBlock with type := 1, version := 1 } : BlockData).serial =
      (generate_serial ⟨0, 0, 0⟩).1 ∧
    (⟨0, 0, 1⟩ : ProgState) = (generate_serial ⟨0, 0, 0⟩).2 :=
  serial_monotonic [10, 11, 12, 13, 14, 15] 0 ⟨0, 0, 0⟩ 1 0 0 0 []
    { zeroBlock with type := 1, version := 1 } ⟨0, 0, 1⟩ (by decide)

/-- Iterating `advance_idle` while no setter is called: either the sleep
switch has already fired (and the state is frozen in the sleeping
expression with the slow window), or the robot is still awake with the
timer accumulated linearly and short of the timeout. -/
theorem advance_idle_invariant (st : EyesState) (hawake : st.isSleeping = false)
    (n : Nat) :
    (((advance_idle FRAME_MS)^[n] st).isSleeping = true ∧
     ((advance_idle FRAME_MS)^[n] st).expr = EYES_SLEEPING ∧
     ((advance_idle FRAME_MS)^[n] st).transitionRemaining = 500 ∧
     ((advance_idle FRAME_MS)^[n] st).targetKey = (EYES_SLEEPING, EYES_CENTER)) ∨
    (((advance_idle FRAME_MS)^[n] st).isSleeping = false ∧
     ((advance_idle FRAME_MS)^[n] st).idleTimer = st.idleTimer + FRAME_MS * n ∧
     (n = 0 ∨ st.idleTimer + FRAME_MS * n < EYES_IDLE_TIMEOUT_MS)) := by
  induction n with
  | zero => right; exact ⟨hawake, by simp, Or.inl rfl⟩
  | succ n ih =>
    rw [Function.iterate_succ_apply']
    rcases ih with ⟨h1, h2, h3, h4⟩ | ⟨h1, h2, h3⟩
    · left
      simp [advance_idle, h1, h2, h3, h4]
    · by_cases hc :
        EYES_IDLE_TIMEOUT_MS ≤ ((advance_idle FRAME_MS)^[n] st).idleTimer + FRAME_MS
      · left
        simp [advance_idle, h1, hc, set_target_from_expression]
      · right
        simp only [advance_idle, h1, Bool.false_eq_true, if_false, ge_iff_le, if_neg hc]
        have hF : FRAME_MS = 33 := rfl
        refine ⟨by trivial, by rw [h2]; ring, Or.inr ?_⟩
        rw [h2, hF] at hc
        rw [hF]
        omega

/-- C8: with no `eyes_set_expression`/`eyes_set_look_direction` call for
at least the idle timeout, the idle sub-machine autonomously switches to
the sleeping expression using the 500 ms window — longer than the normal
250 ms `TRANSITION_MS` — and a subsequent `eyes_set_expression` with a
valid code clears the sleeping flag and resets the idle timer to 0. -/
theorem idle_sleep (st : EyesState) (n e : Nat)
    (hawake : st.isSleeping = false) (h0 : st.idleTimer = 0)
    (hn : EYES_IDLE_TIMEOUT_MS ≤ FRAME_MS * n) :
    ((advance_idle FRAME_MS)^[n] st).isSleeping = true ∧
    ((advance_idle FRAME_MS)^[n] st).expr = EYES_SLEEPING ∧
    ((advance_idle FRAME_MS)^[n] st).transitionRemaining = 500 ∧
    TRANSITION_MS < 500 ∧
    (e < EYES_EXPRESSION_COUNT →
      (eyes_set_expression e ((advance_idle FRAME_MS)^[n] st)).isSleeping = false ∧
      (eyes_set_expression e ((advance_idle FRAME_MS)^[n] st)).idleTimer = 0) := by
  rcases advance_idle_invariant st hawake n with ⟨h1, h2, h3, _⟩ | ⟨_, _, h3⟩
  · refine ⟨h1, h2, h3, by norm_num [TRANSITION_MS], ?_⟩
    intro he
    constructor <;> simp [eyes_set_expression, Nat.not_le.mpr he, set_target_from_expression]
  · exfalso
    rcases h3 with h3 | h3
    · subst h3
      simp only [Nat.mul_zero] at hn
      norm_num [EYES_IDLE_TIMEOUT_MS] at hn
    · rw [h0] at h3
      omega

/-- Witness: from a fresh awake state, 2000 frames (≈66 s) with no
setter call put the animator to sleep, and a `setExpression 0` wakes it
with the idle timer reset. -/
theorem idle_sleep_witness :
    ((advance_idle FRAME_MS)^[2000] ⟨0, 0, 0, false, 250, (0, 0)⟩).isSleeping = true ∧
    ((advance_idle FRAME_MS)^[2000] ⟨0, 0, 0, false, 250, (0, 0)⟩).expr = EYES_SLEEPING ∧
    ((advance_idle FRAME_MS)^[2000] ⟨0, 0, 0, false, 250, (0, 0)⟩).transitionRemaining = 500 ∧
    TRANSITION_MS < 500 ∧
    (0 < EYES_EXPRESSION_COUNT →
      (eyes_set_expression 0
        ((advance_idle FRAME_MS)^[2000] ⟨0, 0, 0, false, 250, (0, 0)⟩)).isSleeping = false ∧
      (eyes_set_expression 0
        ((advance_idle FRAME_MS)^[2000] ⟨0, 0, 0, false, 250, (0, 0)⟩)).idleTimer = 0) :=
  idle_sleep ⟨0, 0, 0, false, 250, (0, 0)⟩ 2000 0 rfl rfl (by decide)

/-- C10: outside pairing mode, the receive callback drops `ProgramStart`,
`BlockData` and `ProgramEnd` frames before any processing unless a peer
is stored and the source address equals it: no state change, nothing
sent, nothing handed to the executor. -/
theorem unpaired_drops_program_msgs (myMac : Mac) (st : RxState) (src : Mac)
    (hpair : st.pairingActive = false)
    (hfilt : st.pairedMac = none ∨ some src ≠ st.pairedMac) :
    (∀ count, espnow_recv_cb myMac st src (.programStart count) = (st, [])) ∧
    (∀ idx blk, espnow_recv_cb myMac st src (.blockData idx blk) = (st, [])) ∧
    espnow_recv_cb myMac st src .programEnd = (st, []) := by
  have hc : (¬ (st.pairingActive = true) ∧
      (st.pairedMac = none ∨ some src ≠ st.pairedMac)) := ⟨by simp [hpair], hfilt⟩
  refine ⟨fun c => ?_, fun i b => ?_, ?_⟩ <;>
    simp only [espnow_recv_cb, if_pos hc]

/-- Witness: a freshly booted robot with no stored peer drops a whole
program exchange from an unknown board. -/
theorem unpaired_drops_program_msgs_witness :
    (∀ count, espnow_recv_cb [2, 2, 2, 2, 2, 2] (initRx none) [1, 1, 1, 1, 1, 1]
        (.programStart count) = (initRx none, [])) ∧
    (∀ idx blk, espnow_recv_cb [2, 2, 2, 2, 2, 2] (initRx none) [1, 1, 1, 1, 1, 1]
        (.blockData idx blk) = (initRx none, [])) ∧
    espnow_recv_cb [2, 2, 2, 2, 2, 2] (initRx none) [1, 1, 1, 1, 1, 1]
        .programEnd = (initRx none, []) :=
  unpaired_drops_program_msgs [2, 2, 2, 2, 2, 2] (initRx none) [1, 1, 1, 1, 1, 1]
    (by decide) (Or.inl (by decide))

/-- C5: a correctly-sized `PairRequest` while the robot is in pairing
mode draws exactly one `PairAck` reply carrying the robot's address, and
the requester's address becomes the recorded peer — persisted once the
main loop's pairing check observes the success flag; outside pairing
mode the request changes nothing and nothing is sent. -/
theorem pair_request_handshake (myMac : Mac) (st : RxState) (src reqMac : Mac) :
    (st.pairingActive = true →
      espnow_recv_cb myMac st src (.pairRequest reqMac) =
        ({ st with pairedMac := some reqMac, peers := insertPeer st.peers reqMac,
                   pairingSuccess := true },
         [Out.addPeer reqMac, Out.send reqMac (Msg.pairAck myMac)]) ∧
      (pairing_check (espnow_recv_cb myMac st src (.pairRequest reqMac)).1).pairedMac
        = some reqMac ∧
      (pairing_check (espnow_recv_cb myMac st src (.pairRequest reqMac)).1).nvsPairedMac
        = some reqMac ∧
      (pairing_check (espnow_recv_cb myMac st src (.pairRequest reqMac)).1).pairingActive
        = false) ∧
    (st.pairingActive = false →
      espnow_recv_cb myMac st src (.pairRequest reqMac) = (st, [])) := by
  constructor
  · intro h
    refine ⟨by simp [espnow_recv_cb, h], ?_, ?_, ?_⟩ <;>
      simp [espnow_recv_cb, h, pairing_check]
  · intro h
    simp [espnow_recv_cb, h]

/-- Witness for the pairing handshake at concrete states: in pairing
mode the ack and peer recording happen; out of pairing mode nothing
does. -/
theorem pair_request_handshake_witness :
    (espnow_recv_cb [2, 2, 2, 2, 2, 2] { initRx none with pairingActive := true }
        [1, 1, 1, 1, 1, 1] (.pairRequest [1, 1, 1, 1, 1, 1]) =
      ({ { initRx none with pairingActive := true } with
          pairedMac := some [1, 1, 1, 1, 1, 1]
          peers := insertPeer ({ initRx none with pairingActive := true }).peers [1, 1, 1, 1, 1, 1]
          pairingSuccess := true },
       [Out.addPeer [1, 1, 1, 1, 1, 1],
        Out.send [1, 1, 1, 1, 1, 1] (Msg.pairAck [2, 2, 2, 2, 2, 2])]) ∧
     (pairing_check (espnow_recv_cb [2, 2, 2, 2, 2, 2]
         { initRx none with pairingActive := true } [1, 1, 1, 1, 1, 1]
         (.pairRequest [1, 1, 1, 1, 1, 1])).1).pairedMac = some [1, 1, 1, 1, 1, 1] ∧
     (pairing_check (espnow_recv_cb [2, 2, 2, 2, 2, 2]
         { initRx none with pairingActive := true } [1, 1, 1, 1, 1, 1]
         (.pairRequest [1, 1, 1, 1, 1, 1])).1).nvsPairedMac = some [1, 1, 1, 1, 1, 1] ∧
     (pairing_check (espnow_recv_cb [2, 2, 2, 2, 2, 2]
         { initRx none with pairingActive := true } [1, 1, 1, 1, 1, 1]
         (.pairRequest [1, 1, 1, 1, 1, 1])).1).pairingActive = false) ∧
    espnow_recv_cb [2, 2, 2, 2, 2, 2] (initRx none) [1, 1, 1, 1, 1, 1]
        (.pairRequest [1, 1, 1, 1, 1, 1]) = (initRx none, []) :=
  ⟨(pair_request_handshake [2, 2, 2, 2, 2, 2] { initRx none with pairingActive := true }
      [1, 1, 1, 1, 1, 1] [1, 1, 1, 1, 1, 1]).1 (by decide),
   (pair_request_handshake [2, 2, 2, 2, 2, 2] (initRx none)
      [1, 1, 1, 1, 1, 1] [1, 1, 1, 1, 1, 1]).2 (by decide)⟩

/-- C2: while receiving, a `BlockData` with index ≥ 8 is ignored; a
valid index stores into its slot (last write wins) and increments the
8-bit received counter unconditionally; consequently a retransmitted
duplicate index over-counts: a program announced with N = 2 whose two
`BlockData` frames both carry index 0 still passes the `ProgramEnd`
completeness check — an ack is sent and a program with a never-received
slot is handed to the executor. -/
theorem block_data_overcount (myMac : Mac) (st : RxState) (src : Mac)
    (idx : Nat) (blk : BlockData)
    (hrx : st.rxInProgress = true)
    (hpass : st.pairingActive = true ∨ st.pairedMac = some src) :
    (ESPNOW_MAX_BLOCKS ≤ idx →
      espnow_recv_cb myMac st src (.blockData idx blk) = (st, [])) ∧
    (idx < ESPNOW_MAX_BLOCKS →
      espnow_recv_cb myMac st src (.blockData idx blk) =
        ({ st with rxBlocks := st.rxBlocks.set idx blk,
                   rxCount := (st.rxCount + 1) % 256 }, [])) ∧
    ((runMsgs [2, 2, 2, 2, 2, 2] (initRx (some [1, 1, 1, 1, 1, 1]))
        [([1, 1, 1, 1, 1, 1], .programStart 2),
         ([1, 1, 1, 1, 1, 1], .blockData 0 { zeroBlock with type := BLOCK_BEEP }),
         ([1, 1, 1, 1, 1, 1], .blockData 0 { zeroBlock with type := BLOCK_BEEP }),
         ([1, 1, 1, 1, 1, 1], .programEnd)]).2 =
       [Out.addPeer [1, 1, 1, 1, 1, 1], Out.send [1, 1, 1, 1, 1, 1] (.programAck 2),
        Out.signalExecutor] ∧
     (runMsgs [2, 2, 2, 2, 2, 2] (initRx (some [1, 1, 1, 1, 1, 1]))
        [([1, 1, 1, 1, 1, 1], .programStart 2),
         ([1, 1, 1, 1, 1, 1], .blockData 0 { zeroBlock with type := BLOCK_BEEP }),
         ([1, 1, 1, 1, 1, 1], .blockData 0 { zeroBlock with type := BLOCK_BEEP }),
         ([1, 1, 1, 1, 1, 1], .programEnd)]).1.execBlocks =
       [{ zeroBlock with type := BLOCK_BEEP }, zeroBlock]) := by
  have hc : ¬ (¬ (st.pairingActive = true) ∧
      (st.pairedMac = none ∨ some src ≠ st.pairedMac)) := by
    rcases hpass with h | h <;> simp [h]
  refine ⟨fun hge => ?_, fun hlt => ?_, by decide, by decide⟩
  · simp only [espnow_recv_cb, if_neg hc, hrx]
    simp [Nat.not_lt.mpr hge]
  · simp only [espnow_recv_cb, if_neg hc, hrx]
    simp [hlt]

/-- Witness: a valid-index `BlockData` in a concrete receiving state
stores the record and bumps the counter; index 8 is dropped. -/
theorem block_data_overcount_witness :
    (ESPNOW_MAX_BLOCKS ≤ 8 →
      espnow_recv_cb [2, 2, 2, 2, 2, 2] { initRx (some [1, 1, 1, 1, 1, 1]) with
          rxInProgress := true } [1, 1, 1, 1, 1, 1]
        (.blockData 8 zeroBlock) =
        ({ initRx (some [1, 1, 1, 1, 1, 1]) with rxInProgress := true }, [])) ∧
    (8 < ESPNOW_MAX_BLOCKS →
      espnow_recv_cb [2, 2, 2, 2, 2, 2] { initRx (some [1, 1, 1, 1, 1, 1]) with
          rxInProgress := true } [1, 1, 1, 1, 1, 1]
        (.blockData 8 zeroBlock) =
        ({ { initRx (some [1, 1, 1, 1, 1, 1]) with rxInProgress := true } with
            rxBlocks := ({ initRx (some [1, 1, 1, 1, 1, 1]) with
              rxInProgress := true }).rxBlocks.set 8 zeroBlock,
            rxCount := (({ initRx (some [1, 1, 1, 1, 1, 1]) with
              rxInProgress := true }).rxCount + 1) % 256 }, [])) ∧
    ((runMsgs [2, 2, 2, 2, 2, 2] (initRx (some [1, 1, 1, 1, 1, 1]))
        [([1, 1, 1, 1, 1, 1], .programStart 2),
         ([1, 1, 1, 1, 1, 1], .blockData 0 { zeroBlock with type := BLOCK_BEEP }),
         ([1, 1, 1, 1, 1, 1], .blockData 0 { zeroBlock with type := BLOCK_BEEP }),
         ([1, 1, 1, 1, 1, 1], .programEnd)]).2 =
       [Out.addPeer [1, 1, 1, 1, 1, 1], Out.send [1, 1, 1, 1, 1, 1] (.programAck 2),
        Out.signalExecutor] ∧
     (runMsgs [2, 2, 2, 2, 2, 2] (initRx (some [1, 1, 1, 1, 1, 1]))
        [([1, 1, 1, 1, 1, 1], .programStart 2),
         ([1, 1, 1, 1, 1, 1], .blockData 0 { zeroBlock with type := BLOCK_BEEP }),
         ([1, 1, 1, 1, 1, 1], .blockData 0 { zeroBlock with type := BLOCK_BEEP }),
         ([1, 1, 1, 1, 1, 1], .programEnd)]).1.execBlocks =
       [{ zeroBlock with type := BLOCK_BEEP }, zeroBlock]) :=
  block_data_overcount [2, 2, 2, 2, 2, 2]
    { initRx (some [1, 1, 1, 1, 1, 1]) with rxInProgress := true }
    [1, 1, 1, 1, 1, 1] 8 zeroBlock (by decide) (Or.inr (by decide))

/-- C6 counterexample: altering two of bytes 0–8 after encoding so that
their XOR contribution cancels (type 0x01→0x02, subtype 0x00→0x03 has
2 ^^^ 3 = 1 = old type byte) leaves the checksum test silent even though
bytes 0–8 changed — refuting "flags mismatch iff any of bytes 0–8
altered". -/
theorem checksum_iff_counterexample :
    bytes0to8 { ((programmer_write_block ⟨0, 0, 0⟩ BLOCK_BEGIN 0 0 0 []).getD
        (zeroBlock, ⟨0, 0, 0⟩)).1 with type := BLOCK_END, subtype := 3 } ≠
      bytes0to8 ((programmer_write_block ⟨0, 0, 0⟩ BLOCK_BEGIN 0 0 0 []).getD
        (zeroBlock, ⟨0, 0, 0⟩)).1 ∧
    read_flags_mismatch { ((programmer_write_block ⟨0, 0, 0⟩ BLOCK_BEGIN 0 0 0 []).getD
        (zeroBlock, ⟨0, 0, 0⟩)).1 with type := BLOCK_END, subtype := 3 } = false := by
  decide

/-- C6 (amended): the write path stamps `checksum = XOR(bytes 0–8)`, and
for any record derived from the encoded one by altering only bytes 0–8
(checksum byte kept), the read path flags a mismatch iff the XOR of
bytes 0–8 changed — single-byte corruption is always flagged, but
multi-byte alterations whose XOR contributions cancel are not. -/
theorem checksum_roundtrip (st : ProgState) (type subtype param1 param2 : Nat)
    (name : List Nat) (b : BlockData) (st' : ProgState)
    (henc : programmer_write_block st type subtype param1 param2 name = some (b, st'))
    (b' : BlockData) (hck : b'.checksum = b.checksum) :
    b.checksum = block_calc_checksum b ∧
    (read_flags_mismatch b' = true ↔ block_calc_checksum b' ≠ block_calc_checksum b) := by
  simp only [programmer_write_block] at henc
  split at henc
  · cases henc
  · cases henc
    have h1 : ({ { zeroBlock with
            type := type, subtype := subtype, param1 := param1, param2 := param2
            serial := (generate_serial st).1, version := BLOCK_VERSION
            name := encodeName name } with
          checksum := block_calc_checksum { zeroBlock with
            type := type, subtype := subtype, param1 := param1, param2 := param2
            serial := (generate_serial st).1, version := BLOCK_VERSION
            name := encodeName name } } : BlockData).checksum =
        block_calc_checksum { { zeroBlock with
            type := type, subtype := subtype, param1 := param1, param2 := param2
            serial := (generate_serial st).1, version := BLOCK_VERSION
            name := encodeName name } with
          checksum := block_calc_checksum { zeroBlock with
            type := type, subtype := subtype, param1 := param1, param2 := param2
            serial := (generate_serial st).1, version := BLOCK_VERSION
            name := encodeName name } } := by
      simp [block_calc_checksum, bytes0to8]
    refine ⟨h1, ?_⟩
    rw [read_flags_mismatch]
    rw [hck, h1]
    simp [ne_comm]

/-- Witness for the amended checksum law: the unaltered encoded record
itself is never flagged. -/
theorem checksum_roundtrip_witness :
    ({ zeroBlock with type := 1, version := 1 } : BlockData).checksum =
      block_calc_checksum { zeroBlock with type := 1, version := 1 } ∧
    (read_flags_mismatch { zeroBlock with type := 1, version := 1 } = true ↔
      block_calc_checksum { zeroBlock with type := 1, version := 1 } ≠
      block_calc_checksum { zeroBlock with type := 1, version := 1 }) :=
  checksum_roundtrip ⟨0, 0, 0⟩ 1 0 0 0 [] { zeroBlock with type := 1, version := 1 }
    ⟨0, 0, 1⟩ (by decide) { zeroBlock with type := 1, version := 1 } (by decide)

/-- Frames are processed left to right, outputs concatenated. -/
theorem runMsgs_append (myMac : Mac) (st : RxState) (l1 l2 : List (Mac × Msg)) :
    runMsgs myMac st (l1 ++ l2) =
      ((runMsgs myMac (runMsgs myMac st l1).1 l2).1,
       (runMsgs myMac st l1).2 ++ (runMsgs myMac (runMsgs myMac st l1).1 l2).2) := by
  induction l1 generalizing st with
  | nil => simp [runMsgs]
  | cons p rest ih => simp [runMsgs, ih]

/-- A batch of in-range `BlockData` frames from the paired board while
receiving: each stores into its slot and bumps the 8-bit counter; no
output is produced. -/
theorem runMsgs_blockData (myMac board : Mac) (l : List (Nat × BlockData)) :
    ∀ st : RxState,
      st.rxInProgress = true →
      st.pairingActive = false →
      st.pairedMac = some board →
      st.rxCount < 256 →
      (∀ p ∈ l, p.1 < ESPNOW_MAX_BLOCKS) →
      runMsgs myMac st (l.map fun p => (board, Msg.blockData p.1 p.2)) =
        ({ st with rxBlocks := l.foldl (fun bs p => bs.set p.1 p.2) st.rxBlocks,
                   rxCount := (st.rxCount + l.length) % 256 }, []) := by
  induction l with
  | nil =>
    intro st h1 _ _ h4 _
    simp [runMsgs, Nat.mod_eq_of_lt h4]
  | cons p rest ih =>
    intro st h1 h2 h3 h4 h5
    have hc : ¬ (¬ (st.pairingActive = true) ∧
        (st.pairedMac = none ∨ some board ≠ st.pairedMac)) := by simp [h3]
    have hidx : p.1 < ESPNOW_MAX_BLOCKS := h5 p (List.mem_cons_self p rest)
    simp only [List.map_cons, runMsgs, espnow_recv_cb, if_neg hc, h1]
    rw [if_neg (by simp), if_pos hidx]
    dsimp only
    have hih := ih
      { st with
        rxBlocks := st.rxBlocks.set p.1 p.2
        rxCount := (st.rxCount + 1) % 256
        rxInProgress := true }
      rfl h2 h3 (Nat.mod_lt _ (by omega))
      (fun q hq => h5 q (List.mem_cons_of_mem p hq))
    rw [hih]
    refine Prod.ext ?_ (by simp)
    simp only [List.foldl_cons, List.length_cons]
    congr 1
    omega

/-- Storing blocks `0‥N−1` in index order into a buffer of length ≥ N
leaves exactly the sent sequence in its first N slots. -/
theorem foldl_set_take (f : Nat → BlockData) :
    ∀ (N : Nat) (bs : List BlockData), N ≤ bs.length →
      ((((List.range N).map fun i => (i, f i)).foldl
          (fun b p => b.set p.1 p.2) bs).take N) = (List.range N).map f := by
  intro N
  induction N with
  | zero => simp
  | succ N ih =>
    intro bs h
    have hlen : ∀ (l : List (Nat × BlockData)) (b : List BlockData),
        (l.foldl (fun bb p => bb.set p.1 p.2) b).length = b.length := by
      intro l
      induction l with
      | nil => intro b; rfl
      | cons q qrest ihq => intro b; rw [List.foldl_cons, ihq]; simp
    rw [List.range_succ, List.map_append, List.foldl_append, List.map_append]
    simp only [List.map_cons, List.map_nil, List.foldl_cons, List.foldl_nil]
    set X := ((List.range N).map fun i => (i, f i)).foldl (fun b p => b.set p.1 p.2) bs
      with hXdef
    have hXlen : X.length = bs.length := hlen _ _
    have hNlen : N < X.length := by omega
    rw [List.set_eq_take_cons_drop _ hNlen]
    have hX : (X.take N).length = N := by
      rw [List.length_take]; omega
    rw [List.take_append_eq_append_take, hX]
    have h1 : (X.take N).take (N + 1) = X.take N := by
      rw [List.take_take, Nat.min_eq_right (Nat.le_succ N)]
    have h2 : (f N :: X.drop (N + 1)).take (N + 1 - N) = [f N] := by
      simp
    rw [h1, h2, ih bs (by omega)]

/-- Slot writes preserve the buffer's length. -/
theorem foldl_set_length (l : List (Nat × BlockData)) :
    ∀ bs : List BlockData,
      (l.foldl (fun b p => b.set p.1 p.2) bs).length = bs.length := by
  induction l with
  | nil => intro bs; rfl
  | cons p rest ih =>
      intro bs
      rw [List.foldl_cons, ih]
      simp

/-- Slots whose index is never written keep their content. -/
theorem foldl_set_getElem_not_mem (l : List (Nat × BlockData)) :
    ∀ (bs : List BlockData) (i : Nat), i ∉ l.map Prod.fst →
      (l.foldl (fun b p => b.set p.1 p.2) bs)[i]? = bs[i]? := by
  induction l with
  | nil => intro bs i _; rfl
  | cons p rest ih =>
      intro bs i h
      rw [List.map_cons, List.mem_cons] at h
      push_neg at h
      rw [List.foldl_cons, ih _ _ h.2, List.getElem?_set_ne (fun hh => h.1 hh.symm)]

/-- With pairwise-distinct indices, a written slot ends up holding the
block written to it, in whatever order the writes arrive. -/
theorem foldl_set_getElem_mem (l : List (Nat × BlockData)) :
    ∀ (bs : List BlockData) (i : Nat) (v : BlockData),
      (l.map Prod.fst).Nodup → (i, v) ∈ l → i < bs.length →
      (l.foldl (fun b p => b.set p.1 p.2) bs)[i]? = some v := by
  induction l with
  | nil => intro _ _ _ _ hm _; cases hm
  | cons p rest ih =>
      intro bs i v hnd hm hi
      rw [List.map_cons, List.nodup_cons] at hnd
      rw [List.foldl_cons]
      rcases List.mem_cons.mp hm with rfl | hm2
      · rw [foldl_set_getElem_not_mem rest _ _ hnd.1]
        rw [List.getElem?_set_eq (by simpa using hi)]
      · have hne : p.1 ≠ i := by
          intro he
          exact hnd.1 (he ▸ List.mem_map_of_mem Prod.fst hm2)
        exact ih _ _ _ hnd.2 hm2 (by simpa using hi)

/-- N distinct writes with indices below N and values `f index`, into a
buffer of length ≥ N, leave exactly `f 0, …, f (N−1)` in the first N
slots — the sent sequence in index order, whatever the arrival order. -/
theorem foldl_set_distinct_take (f : Nat → BlockData) (N : Nat)
    (l : List (Nat × BlockData)) (bs : List BlockData)
    (hN : N ≤ bs.length) (hlen : l.length = N)
    (hnd : (l.map Prod.fst).Nodup) (hidx : ∀ p ∈ l, p.1 < N)
    (hval : ∀ p ∈ l, p.2 = f p.1) :
    (l.foldl (fun b p => b.set p.1 p.2) bs).take N = (List.range N).map f := by
  have hcover : ∀ i, i < N → i ∈ l.map Prod.fst := by
    intro i hi
    have hsub : (l.map Prod.fst).toFinset ⊆ Finset.range N := by
      intro x hx
      rw [List.mem_toFinset] at hx
      rcases List.mem_map.mp hx with ⟨p, hp, rfl⟩
      exact Finset.mem_range.mpr (hidx p hp)
    have hcard : (Finset.range N).card ≤ (l.map Prod.fst).toFinset.card := by
      rw [List.toFinset_card_of_nodup hnd, Finset.card_range, List.length_map, hlen]
    have heq := Finset.eq_of_subset_of_card_le hsub hcard
    have hin : i ∈ (l.map Prod.fst).toFinset := by
      rw [heq]
      exact Finset.mem_range.mpr hi
    exact List.mem_toFinset.mp hin
  have hflen := foldl_set_length l bs
  refine List.ext_getElem? fun i => ?_
  by_cases hi : i < N
  · rw [List.getElem?_take, if_pos hi]
    rcases List.mem_map.mp (hcover i hi) with ⟨p, hp, hpi⟩
    have hv : p = (i, f i) := by
      have := hval p hp
      rw [Prod.ext_iff]
      exact ⟨hpi, by rw [this, hpi]⟩
    rw [foldl_set_getElem_mem l bs i (f i) hnd (hv ▸ hp) (by omega)]
    rw [List.getElem?_map, List.getElem?_range hi]
    rfl
  · have h1 : ((l.foldl (fun b p => b.set p.1 p.2) bs).take N).length ≤ N :=
      le_trans (List.length_take_le N _) (Nat.le_refl N)
    rw [List.getElem?_eq_none (by omega), List.getElem?_eq_none (by simp; omega)]

/-- Complete transfer: `ProgramStart N`, the N blocks in index order,
`ProgramEnd` — the executor hand-off holds exactly the sent sequence and
exactly one ack (with count N) goes back to the board. -/
theorem transport_complete_ok (myMac board : Mac) (N : Nat) (f : Nat → BlockData)
    (h1 : 1 ≤ N) (h8 : N ≤ ESPNOW_MAX_BLOCKS) :
    (runMsgs myMac (initRx (some board))
        ((board, Msg.programStart N) ::
          ((List.range N).map fun i => (board, Msg.blockData i (f i))) ++
          [(board, Msg.programEnd)])).1.execBlocks = (List.range N).map f ∧
    (runMsgs myMac (initRx (some board))
        ((board, Msg.programStart N) ::
          ((List.range N).map fun i => (board, Msg.blockData i (f i))) ++
          [(board, Msg.programEnd)])).2 =
      [Out.addPeer board, Out.send board (Msg.programAck N), Out.signalExecutor] := by
  have hE : ESPNOW_MAX_BLOCKS = 8 := rfl
  have hc : ¬ (¬ ((initRx (some board)).pairingActive = true) ∧
      ((initRx (some board)).pairedMac = none ∨
       some board ≠ (initRx (some board)).pairedMac)) := by
    simp [initRx]
  have hstart : espnow_recv_cb myMac (initRx (some board)) board (.programStart N) =
      ({ initRx (some board) with rxExpected := N, rxCount := 0, rxInProgress := true },
       []) := by
    simp only [espnow_recv_cb, if_neg hc]
    rw [if_neg (Nat.not_lt.mpr h8)]
  have hmap : ((List.range N).map fun i => (board, Msg.blockData i (f i))) =
      (((List.range N).map fun i => (i, f i)).map fun p =>
        (board, Msg.blockData p.1 p.2)) := by
    simp [List.map_map]
  have hbatch := runMsgs_blockData myMac board ((List.range N).map fun i => (i, f i))
    { initRx (some board) with rxExpected := N, rxCount := 0, rxInProgress := true }
    rfl rfl rfl (by show (0 : Nat) < 256; omega)
    (by intro p hp
        simp only [List.mem_map] at hp
        obtain ⟨i, hi, rfl⟩ := hp
        simp only [List.mem_range] at hi
        omega)
  have hcnt : (0 + ((List.range N).map fun i => (i, f i)).length) % 256 = N := by
    simp only [List.length_map, List.length_range]
    omega
  rw [hcnt] at hbatch
  have hend : espnow_recv_cb myMac
      { initRx (some board) with
        rxBlocks := (((List.range N).map fun i => (i, f i)).foldl
          (fun bs p => bs.set p.1 p.2) (initRx (some board)).rxBlocks)
        rxCount := N
        rxExpected := N
        rxInProgress := true }
      board .programEnd =
      ({ initRx (some board) with
         rxBlocks := (((List.range N).map fun i => (i, f i)).foldl
           (fun bs p => bs.set p.1 p.2) (initRx (some board)).rxBlocks)
         rxCount := N
         rxExpected := N
         rxInProgress := false
         peers := insertPeer [] board
         execBlocks := ((((List.range N).map fun i => (i, f i)).foldl
           (fun bs p => bs.set p.1 p.2) (initRx (some board)).rxBlocks).take N)
         execCount := N },
       [Out.addPeer board, Out.send board (Msg.programAck N), Out.signalExecutor]) := by
    simp only [espnow_recv_cb, if_neg hc]
    rw [if_neg (by simp), if_pos (Nat.le_refl N)]
    simp [insertPeer, initRx]
  have htake := foldl_set_take f N (initRx (some board)).rxBlocks
    (by simp [initRx]; omega)
  constructor <;>
    simp only [runMsgs, runMsgs_append, hstart, hmap, hbatch, hend, htake,
      List.append_eq, List.nil_append, List.append_nil]

/-- Complete transfer, arbitrary arrival order: `ProgramStart N`, then
N `BlockData` frames with pairwise-distinct indices `0‥N−1` carrying
`f index`, then `ProgramEnd` — the executor hand-off holds the sent
sequence in index order and exactly one ack goes back. -/
theorem transport_complete_distinct (myMac board : Mac) (N : Nat) (f : Nat → BlockData)
    (l : List (Nat × BlockData))
    (h1 : 1 ≤ N) (h8 : N ≤ ESPNOW_MAX_BLOCKS) (hlen : l.length = N)
    (hnd : (l.map Prod.fst).Nodup) (hidx : ∀ p ∈ l, p.1 < N)
    (hval : ∀ p ∈ l, p.2 = f p.1) :
    (runMsgs myMac (initRx (some board))
        ((board, Msg.programStart N) ::
          (l.map fun p => (board, Msg.blockData p.1 p.2)) ++
          [(board, Msg.programEnd)])).1.execBlocks = (List.range N).map f ∧
    (runMsgs myMac (initRx (some board))
        ((board, Msg.programStart N) ::
          (l.map fun p => (board, Msg.blockData p.1 p.2)) ++
          [(board, Msg.programEnd)])).2 =
      [Out.addPeer board, Out.send board (Msg.programAck N), Out.signalExecutor] := by
  have hE : ESPNOW_MAX_BLOCKS = 8 := rfl
  have hc : ¬ (¬ ((initRx (some board)).pairingActive = true) ∧
      ((initRx (some board)).pairedMac = none ∨
       some board ≠ (initRx (some board)).pairedMac)) := by
    simp [initRx]
  have hstart : espnow_recv_cb myMac (initRx (some board)) board (.programStart N) =
      ({ initRx (some board) with rxExpected := N, rxCount := 0, rxInProgress := true },
       []) := by
    simp only [espnow_recv_cb, if_neg hc]
    rw [if_neg (Nat.not_lt.mpr h8)]
  have hbatch := runMsgs_blockData myMac board l
    { initRx (some board) with rxExpected := N, rxCount := 0, rxInProgress := true }
    rfl rfl rfl (by show (0 : Nat) < 256; omega)
    (fun p hp => by have := hidx p hp; omega)
  have hcnt : (0 + l.length) % 256 = N := by
    rw [hlen]
    omega
  rw [hcnt] at hbatch
  have hend : espnow_recv_cb myMac
      { initRx (some board) with
        rxBlocks := l.foldl (fun bs p => bs.set p.1 p.2) (initRx (some board)).rxBlocks
        rxCount := N
        rxExpected := N
        rxInProgress := true }
      board .programEnd =
      ({ initRx (some board) with
         rxBlocks := l.foldl (fun bs p => bs.set p.1 p.2) (initRx (some board)).rxBlocks
         rxCount := N
         rxExpected := N
         rxInProgress := false
         peers := insertPeer [] board
         execBlocks := (l.foldl (fun bs p => bs.set p.1 p.2)
           (initRx (some board)).rxBlocks).take N
         execCount := N },
       [Out.addPeer board, Out.send board (Msg.programAck N), Out.signalExecutor]) := by
    simp only [espnow_recv_cb, if_neg hc]
    rw [if_neg (by simp), if_pos (Nat.le_refl N)]
    simp [insertPeer, initRx]
  have htake := foldl_set_distinct_take f N l (initRx (some board)).rxBlocks
    (by simp [initRx]; omega) hlen hnd hidx hval
  constructor <;>
    simp only [runMsgs, runMsgs_append, hstart, hbatch, hend, htake,
      List.append_eq, List.nil_append, List.append_nil]

/-- Incomplete transfer: fewer than N blocks before `ProgramEnd` — no
output at all (in particular no ack) and the executor hand-off is left
untouched. -/
theorem transport_incomplete (myMac board : Mac) (N : Nat)
    (l : List (Nat × BlockData)) (st0 : RxState)
    (h1 : 1 ≤ N) (h8 : N ≤ ESPNOW_MAX_BLOCKS)
    (hlen : l.length < N) (hidx : ∀ p ∈ l, p.1 < N)
    (hnd : (l.map Prod.fst).Nodup)
    (hpa : st0.pairingActive = false) (hpm : st0.pairedMac = some board)
    (hidle : st0.rxInProgress = false) :
    (runMsgs myMac st0
        ((board, Msg.programStart N) ::
          (l.map fun p => (board, Msg.blockData p.1 p.2)) ++
          [(board, Msg.programEnd)])).1.execBlocks = st0.execBlocks ∧
    (runMsgs myMac st0
        ((board, Msg.programStart N) ::
          (l.map fun p => (board, Msg.blockData p.1 p.2)) ++
          [(board, Msg.programEnd)])).1.execCount = st0.execCount ∧
    (runMsgs myMac st0
        ((board, Msg.programStart N) ::
          (l.map fun p => (board, Msg.blockData p.1 p.2)) ++
          [(board, Msg.programEnd)])).2 = [] := by
  have hE : ESPNOW_MAX_BLOCKS = 8 := rfl
  have hc : ¬ (¬ (st0.pairingActive = true) ∧
      (st0.pairedMac = none ∨ some board ≠ st0.pairedMac)) := by
    simp [hpa, hpm]
  have hstart : espnow_recv_cb myMac st0 board (.programStart N) =
      ({ st0 with rxExpected := N, rxCount := 0, rxInProgress := true }, []) := by
    simp only [espnow_recv_cb, if_neg hc]
    rw [if_neg (Nat.not_lt.mpr h8)]
  have hbatch := runMsgs_blockData myMac board l
    { st0 with rxExpected := N, rxCount := 0, rxInProgress := true }
    rfl hpa hpm (by show (0 : Nat) < 256; omega)
    (fun p hp => by have := hidx p hp; omega)
  have hcnt : (0 + l.length) % 256 = l.length := by omega
  rw [hcnt] at hbatch
  have hend : espnow_recv_cb myMac
      { st0 with
        rxBlocks := l.foldl (fun bs p => bs.set p.1 p.2) st0.rxBlocks
        rxCount := l.length
        rxExpected := N
        rxInProgress := true }
      board .programEnd =
      ({ st0 with
         rxBlocks := l.foldl (fun bs p => bs.set p.1 p.2) st0.rxBlocks
         rxCount := l.length
         rxExpected := N
         rxInProgress := false },
       []) := by
    have hc2 : ¬ (¬ (st0.pairingActive = true) ∧
        (st0.pairedMac = none ∨ some board ≠ st0.pairedMac)) := hc
    simp only [espnow_recv_cb, if_neg hc2]
    rw [if_neg (by simp), if_neg (Nat.not_le.mpr hlen)]
  refine ⟨?_, ?_, ?_⟩ <;>
    simp only [runMsgs, runMsgs_append, hstart, hbatch, hend, List.append_eq,
      List.nil_append, List.append_nil]

/-- C1: completeness of the program transport, both directions: a full
in-order transfer hands exactly the sent sequence to the executor and
draws exactly one `ProgramAck{N}`; a transfer with fewer than N distinct
blocks is discarded at `ProgramEnd` — no ack, nothing handed over, the
pending program untouched. -/
theorem transport_completeness :
    (∀ (myMac board : Mac) (N : Nat) (f : Nat → BlockData),
      1 ≤ N → N ≤ ESPNOW_MAX_BLOCKS →
      (runMsgs myMac (initRx (some board))
          ((board, Msg.programStart N) ::
            ((List.range N).map fun i => (board, Msg.blockData i (f i))) ++
            [(board, Msg.programEnd)])).1.execBlocks = (List.range N).map f ∧
      (runMsgs myMac (initRx (some board))
          ((board, Msg.programStart N) ::
            ((List.range N).map fun i => (board, Msg.blockData i (f i))) ++
            [(board, Msg.programEnd)])).2 =
        [Out.addPeer board, Out.send board (Msg.programAck N), Out.signalExecutor]) ∧
    (∀ (myMac board : Mac) (N : Nat) (f : Nat → BlockData)
        (l : List (Nat × BlockData)),
      1 ≤ N → N ≤ ESPNOW_MAX_BLOCKS → l.length = N →
      (l.map Prod.fst).Nodup → (∀ p ∈ l, p.1 < N) → (∀ p ∈ l, p.2 = f p.1) →
      (runMsgs myMac (initRx (some board))
          ((board, Msg.programStart N) ::
            (l.map fun p => (board, Msg.blockData p.1 p.2)) ++
            [(board, Msg.programEnd)])).1.execBlocks = (List.range N).map f ∧
      (runMsgs myMac (initRx (some board))
          ((board, Msg.programStart N) ::
            (l.map fun p => (board, Msg.blockData p.1 p.2)) ++
            [(board, Msg.programEnd)])).2 =
        [Out.addPeer board, Out.send board (Msg.programAck N), Out.signalExecutor]) ∧
    (∀ (myMac board : Mac) (N : Nat) (l : List (Nat × BlockData)) (st0 : RxState),
      1 ≤ N → N ≤ ESPNOW_MAX_BLOCKS →
      l.length < N → (∀ p ∈ l, p.1 < N) → (l.map Prod.fst).Nodup →
      st0.pairingActive = false → st0.pairedMac = some board →
      st0.rxInProgress = false →
      (runMsgs myMac st0
          ((board, Msg.programStart N) ::
            (l.map fun p => (board, Msg.blockData p.1 p.2)) ++
            [(board, Msg.programEnd)])).1.execBlocks = st0.execBlocks ∧
      (runMsgs myMac st0
          ((board, Msg.programStart N) ::
            (l.map fun p => (board, Msg.blockData p.1 p.2)) ++
            [(board, Msg.programEnd)])).1.execCount = st0.execCount ∧
      (runMsgs myMac st0
          ((board, Msg.programStart N) ::
            (l.map fun p => (board, Msg.blockData p.1 p.2)) ++
            [(board, Msg.programEnd)])).2 = []) :=
  ⟨fun myMac board N f h1 h8 => transport_complete_ok myMac board N f h1 h8,
   fun myMac board N f l h1 h8 hlen hnd hidx hval =>
     transport_complete_distinct myMac board N f l h1 h8 hlen hnd hidx hval,
   fun myMac board N l st0 h1 h8 hlen hidx hnd hpa hpm hidle =>
     transport_incomplete myMac board N l st0 h1 h8 hlen hidx hnd hpa hpm hidle⟩

/-- Witness for the transport-completeness law at N = 2: a full transfer
acks and hands over both blocks, also when the two frames arrive in
reversed index order; a transfer missing block 1 is silent and leaves
the hand-off untouched. -/
theorem transport_completeness_witness :
    ((runMsgs [2, 2, 2, 2, 2, 2] (initRx (some [1, 1, 1, 1, 1, 1]))
        (([1, 1, 1, 1, 1, 1], Msg.programStart 2) ::
          ((List.range 2).map fun i => ([1, 1, 1, 1, 1, 1], Msg.blockData i zeroBlock)) ++
          [([1, 1, 1, 1, 1, 1], Msg.programEnd)])).1.execBlocks =
      (List.range 2).map (fun _ => zeroBlock) ∧
     (runMsgs [2, 2, 2, 2, 2, 2] (initRx (some [1, 1, 1, 1, 1, 1]))
        (([1, 1, 1, 1, 1, 1], Msg.programStart 2) ::
          ((List.range 2).map fun i => ([1, 1, 1, 1, 1, 1], Msg.blockData i zeroBlock)) ++
          [([1, 1, 1, 1, 1, 1], Msg.programEnd)])).2 =
      [Out.addPeer [1, 1, 1, 1, 1, 1], Out.send [1, 1, 1, 1, 1, 1] (Msg.programAck 2),
       Out.signalExecutor]) ∧
    ((runMsgs [2, 2, 2, 2, 2, 2] (initRx (some [1, 1, 1, 1, 1, 1]))
        (([1, 1, 1, 1, 1, 1], Msg.programStart 2) ::
          ([(1, zeroBlock), (0, zeroBlock)].map fun p =>
            ([1, 1, 1, 1, 1, 1], Msg.blockData p.1 p.2)) ++
          [([1, 1, 1, 1, 1, 1], Msg.programEnd)])).1.execBlocks =
      (List.range 2).map (fun _ => zeroBlock) ∧
     (runMsgs [2, 2, 2, 2, 2, 2] (initRx (some [1, 1, 1, 1, 1, 1]))
        (([1, 1, 1, 1, 1, 1], Msg.programStart 2) ::
          ([(1, zeroBlock), (0, zeroBlock)].map fun p =>
            ([1, 1, 1, 1, 1, 1], Msg.blockData p.1 p.2)) ++
          [([1, 1, 1, 1, 1, 1], Msg.programEnd)])).2 =
      [Out.addPeer [1, 1, 1, 1, 1, 1], Out.send [1, 1, 1, 1, 1, 1] (Msg.programAck 2),
       Out.signalExecutor]) ∧
    ((runMsgs [2, 2, 2, 2, 2, 2] (initRx (some [1, 1, 1, 1, 1, 1]))
        (([1, 1, 1, 1, 1, 1], Msg.programStart 2) ::
          ([(0, zeroBlock)].map fun p => ([1, 1, 1, 1, 1, 1], Msg.blockData p.1 p.2)) ++
          [([1, 1, 1, 1, 1, 1], Msg.programEnd)])).1.execBlocks =
      (initRx (some [1, 1, 1, 1, 1, 1])).execBlocks ∧
     (runMsgs [2, 2, 2, 2, 2, 2] (initRx (some [1, 1, 1, 1, 1, 1]))
        (([1, 1, 1, 1, 1, 1], Msg.programStart 2) ::
          ([(0, zeroBlock)].map fun p => ([1, 1, 1, 1, 1, 1], Msg.blockData p.1 p.2)) ++
          [([1, 1, 1, 1, 1, 1], Msg.programEnd)])).1.execCount =
      (initRx (some [1, 1, 1, 1, 1, 1])).execCount ∧
     (runMsgs [2, 2, 2, 2, 2, 2] (initRx (some [1, 1, 1, 1, 1, 1]))
        (([1, 1, 1, 1, 1, 1], Msg.programStart 2) ::
          ([(0, zeroBlock)].map fun p => ([1, 1, 1, 1, 1, 1], Msg.blockData p.1 p.2)) ++
          [([1, 1, 1, 1, 1, 1], Msg.programEnd)])).2 = []) :=
  ⟨transport_completeness.1 [2, 2, 2, 2, 2, 2] [1, 1, 1, 1, 1, 1] 2 (fun _ => zeroBlock)
      (by decide) (by decide),
   transport_completeness.2.1 [2, 2, 2, 2, 2, 2] [1, 1, 1, 1, 1, 1] 2 (fun _ => zeroBlock)
      [(1, zeroBlock), (0, zeroBlock)]
      (by decide) (by decide) (by decide) (by simp)
      (by intro p hp; simp at hp; rcases hp with hp | hp <;> simp [hp])
      (by intro p hp; simp at hp; rcases hp with hp | hp <;> simp [hp]),
   transport_completeness.2.2 [2, 2, 2, 2, 2, 2] [1, 1, 1, 1, 1, 1] 2 [(0, zeroBlock)]
      (initRx (some [1, 1, 1, 1, 1, 1])) (by decide) (by decide) (by decide)
      (by intro p hp; simp at hp; simp [hp]) (by simp)
      (by decide) (by decide) (by decide)⟩

/-- Peeling the first position off a half-open counting range. -/
theorem countP_range'_shift (p : Nat → Bool) (s j : Nat) (h : s < j) :
    (List.range' s (j - s)).countP p =
      (if p s then 1 else 0) + (List.range' (s + 1) (j - (s + 1))).countP p := by
  have h1 : j - s = (j - (s + 1)) + 1 := by omega
  rw [h1,
    show List.range' s ((j - (s + 1)) + 1) = s :: List.range' (s + 1) (j - (s + 1)) from rfl,
    List.countP_cons]
  by_cases hp : p s <;> simp [hp] <;> omega

/-- Transfer of the scan characterization across one scanned position. -/
theorem scanChar_step (blocks : List BlockData) (count s : Nat) (d d' : Int) (e : Nat)
    (hiff : ∀ j, s + 1 ≤ j → (nestMatchD blocks d s j ↔ nestMatchD blocks d' (s + 1) j))
    (hnot : ¬ nestMatchD blocks d s s)
    (hge : s + 1 ≤ e)
    (h : scanChar blocks count (s + 1) d' e) : scanChar blocks count s d e := by
  rcases h with ⟨h1, h2⟩ | ⟨h1, h2, h3⟩
  · left
    refine ⟨h1, fun j hj1 hj2 => ?_⟩
    rcases Nat.eq_or_lt_of_le hj1 with rfl | hj
    · exact hnot
    · exact fun hm => h2 j hj hj2 ((hiff j hj).mp hm)
  · right
    refine ⟨h1, (hiff e hge).mpr h2, fun j hj1 hj2 => ?_⟩
    rcases Nat.eq_or_lt_of_le hj1 with rfl | hj
    · exact hnot
    · exact fun hm => h3 j hj hj2 ((hiff j hj).mp hm)

/-- The executor's depth-matched forward scan returns exactly the first
correctly-nested closer for its entry depth, or `count` when none
exists. -/
theorem scanEnd_char (blocks : List BlockData) (count s : Nat) (hs : s ≤ count)
    (d : Int) : scanChar blocks count s d (scanEnd blocks count s d) := by
  rw [scanEnd]
  by_cases h1 : s < count
  · rw [if_pos h1]
    by_cases hEnd : typeAt blocks s = BLOCK_END_REPEAT
    · rw [if_pos hEnd]
      by_cases hd : d - 1 = 0
      · rw [if_pos hd]
        right
        refine ⟨h1, ⟨hEnd, ?_⟩, fun j hj1 hj2 => absurd (Nat.lt_of_le_of_lt hj1 hj2)
          (Nat.lt_irrefl s)⟩
        have hr : repeatsIn blocks s s = 0 := by simp [repeatsIn]
        have he : endsIn blocks s s = 0 := by simp [endsIn]
        rw [hr, he]
        omega
      · rw [if_neg hd]
        refine scanChar_step blocks count s d (d - 1) _ ?_ ?_ ?_
          (scanEnd_char blocks count (s + 1) h1 (d - 1))
        · intro j hj
          unfold nestMatchD repeatsIn endsIn
          rw [countP_range'_shift _ s j (by omega), countP_range'_shift _ s j (by omega)]
          rw [if_neg (by simp [hEnd, BLOCK_END_REPEAT, BLOCK_REPEAT]),
              if_pos (by simp [hEnd])]
          constructor
          · rintro ⟨ha, hb⟩
            exact ⟨ha, by push_cast at hb ⊢; omega⟩
          · rintro ⟨ha, hb⟩
            exact ⟨ha, by push_cast at hb ⊢; omega⟩
        · rintro ⟨-, hb⟩
          have hr : repeatsIn blocks s s = 0 := by simp [repeatsIn]
          have he : endsIn blocks s s = 0 := by simp [endsIn]
          rw [hr, he] at hb
          omega
        · exact scanEnd_ge blocks count (s + 1) (d - 1) h1
    · rw [if_neg hEnd]
      by_cases hRep : typeAt blocks s = BLOCK_REPEAT
      · rw [if_pos hRep]
        refine scanChar_step blocks count s d (d + 1) _ ?_ ?_ ?_
          (scanEnd_char blocks count (s + 1) h1 (d + 1))
        · intro j hj
          unfold nestMatchD repeatsIn endsIn
          rw [countP_range'_shift _ s j (by omega), countP_range'_shift _ s j (by omega)]
          rw [if_pos (by simp [hRep]),
              if_neg (by simp [hRep, BLOCK_END_REPEAT, BLOCK_REPEAT])]
          constructor
          · rintro ⟨ha, hb⟩
            exact ⟨ha, by push_cast at hb ⊢; omega⟩
          · rintro ⟨ha, hb⟩
            exact ⟨ha, by push_cast at hb ⊢; omega⟩
        · rintro ⟨ha, -⟩
          exact hEnd ha
        · exact scanEnd_ge blocks count (s + 1) (d + 1) h1
      · rw [if_neg hRep]
        refine scanChar_step blocks count s d d _ ?_ ?_ ?_
          (scanEnd_char blocks count (s + 1) h1 d)
        · intro j hj
          unfold nestMatchD repeatsIn endsIn
          rw [countP_range'_shift _ s j (by omega), countP_range'_shift _ s j (by omega)]
          rw [if_neg (by simp [hRep]), if_neg (by simp [hEnd])]
          simp
        · rintro ⟨ha, -⟩
          exact hEnd ha
        · exact scanEnd_ge blocks count (s + 1) d h1
  · rw [if_neg h1]
    left
    exact ⟨rfl, fun j hj1 hj2 => absurd (Nat.lt_of_le_of_lt hj1 hj2) h1⟩
termination_by count - s

/-- At the executor's entry depth 1, the generalized match notion is
exactly "an `END_REPEAT` with balanced interior". -/
theorem nestMatchD_one (blocks : List BlockData) (s j : Nat) :
    nestMatchD blocks 1 s j ↔ nestMatch blocks s j := by
  unfold nestMatchD nestMatch
  constructor
  · rintro ⟨ha, hb⟩
    exact ⟨ha, by omega⟩
  · rintro ⟨ha, hb⟩
    exact ⟨ha, by omega⟩

/-- Dispatch at a `BLOCK_REPEAT`: the loop shape with the scanned body
range and the resolved iteration count (forever ↦ 1000). -/
theorem execStep_repeat (blocks : List BlockData) (count pc : Nat)
    (ht : typeAt blocks pc = BLOCK_REPEAT) :
    execStep blocks count pc =
      .loop ((get_param_value blocks count pc).2 + 1)
        (scanEnd blocks count ((get_param_value blocks count pc).2 + 1) 1)
        (if (get_param_value blocks count pc).1 < 0 then 1000
         else (get_param_value blocks count pc).1.toNat) := by
  unfold execStep
  rw [if_neg (by rw [ht]; decide), if_pos ht]

/-- Unfolding one `BLOCK_REPEAT` iteration of the interpreter: the body
— the sub-range strictly between the `REPEAT` head (plus its consumed
parameter) and the scanned closer — runs as a recursive invocation,
replicated the resolved number of times, and execution resumes past the
closer. -/
theorem execRun_repeat (blocks : List BlockData) (count pc : Nat)
    (hpc : pc < count) (ht : typeAt blocks pc = BLOCK_REPEAT) :
    execRun blocks count pc =
      (List.replicate
          (if (get_param_value blocks count pc).1 < 0 then 1000
           else (get_param_value blocks count pc).1.toNat)
          (if 0 < scanEnd blocks count ((get_param_value blocks count pc).2 + 1) 1 -
                ((get_param_value blocks count pc).2 + 1) then
             execRun ((blocks.drop ((get_param_value blocks count pc).2 + 1)).take
                 (scanEnd blocks count ((get_param_value blocks count pc).2 + 1) 1 -
                  ((get_param_value blocks count pc).2 + 1)))
               (scanEnd blocks count ((get_param_value blocks count pc).2 + 1) 1 -
                ((get_param_value blocks count pc).2 + 1)) 0
           else [])).flatten ++
        execRun blocks count
          (scanEnd blocks count ((get_param_value blocks count pc).2 + 1) 1 + 1) := by
  have hstep := execStep_repeat blocks count pc ht
  rw [execRun]
  rw [dif_pos hpc]
  split
  · next evs heq =>
      rw [hstep] at heq
      cases heq
  · next evs nx heq =>
      rw [hstep] at heq
      cases heq
  · next sp ep it heq =>
      rw [hstep] at heq
      injection heq with h1 h2 h3
      subst h1
      subst h2
      subst h3
      rfl

/-- C3: for every block array, the executor matches a `Repeat` to its
correctly nested `EndRepeat` — the first closer with balanced interior
after the repeat head and its consumed parameter — regardless of
interior repeat blocks, falling back to end-of-program when unmatched;
the strict sub-range between them runs as a recursive interpreter
invocation repeated the resolved count times (a forever sentinel is
capped at 1000 iterations), after which the program counter resumes
from the matching `EndRepeat`. -/
theorem repeat_nesting (blocks : List BlockData) (count pc : Nat)
    (hpc : pc < count) (ht : typeAt blocks pc = BLOCK_REPEAT) :
    ((scanEnd blocks count ((get_param_value blocks count pc).2 + 1) 1 = count ∧
      ∀ j, (get_param_value blocks count pc).2 + 1 ≤ j → j < count →
        ¬ nestMatch blocks ((get_param_value blocks count pc).2 + 1) j) ∨
     (scanEnd blocks count ((get_param_value blocks count pc).2 + 1) 1 < count ∧
      nestMatch blocks ((get_param_value blocks count pc).2 + 1)
        (scanEnd blocks count ((get_param_value blocks count pc).2 + 1) 1) ∧
      ∀ j, (get_param_value blocks count pc).2 + 1 ≤ j →
        j < scanEnd blocks count ((get_param_value blocks count pc).2 + 1) 1 →
        ¬ nestMatch blocks ((get_param_value blocks count pc).2 + 1) j)) ∧
    execRun blocks count pc =
      (List.replicate
          (if (get_param_value blocks count pc).1 < 0 then 1000
           else (get_param_value blocks count pc).1.toNat)
          (if 0 < scanEnd blocks count ((get_param_value blocks count pc).2 + 1) 1 -
                ((get_param_value blocks count pc).2 + 1) then
             execRun ((blocks.drop ((get_param_value blocks count pc).2 + 1)).take
                 (scanEnd blocks count ((get_param_value blocks count pc).2 + 1) 1 -
                  ((get_param_value blocks count pc).2 + 1)))
               (scanEnd blocks count ((get_param_value blocks count pc).2 + 1) 1 -
                ((get_param_value blocks count pc).2 + 1)) 0
           else [])).flatten ++
        execRun blocks count
          (scanEnd blocks count ((get_param_value blocks count pc).2 + 1) 1 + 1) := by
  have hs : (get_param_value blocks count pc).2 + 1 ≤ count := by
    rcases get_param_value_snd blocks count pc with h | ⟨h, h2⟩ <;> omega
  have hchar := scanEnd_char blocks count ((get_param_value blocks count pc).2 + 1) hs 1
  constructor
  · rcases hchar with ⟨h1, h2⟩ | ⟨h1, h2, h3⟩
    · exact Or.inl ⟨h1, fun j hj1 hj2 hm =>
        h2 j hj1 hj2 ((nestMatchD_one blocks _ j).mpr hm)⟩
    · exact Or.inr ⟨h1, (nestMatchD_one blocks _ _).mp h2, fun j hj1 hj2 hm =>
        h3 j hj1 hj2 ((nestMatchD_one blocks _ j).mpr hm)⟩
  · exact execRun_repeat blocks count pc hpc ht

/-- Witness: the nesting law applied to the spec's example program at
its outer `Repeat`. -/
theorem repeat_nesting_witness :
    ((scanEnd exampleNest 6 ((get_param_value exampleNest 6 0).2 + 1) 1 = 6 ∧
      ∀ j, (get_param_value exampleNest 6 0).2 + 1 ≤ j → j < 6 →
        ¬ nestMatch exampleNest ((get_param_value exampleNest 6 0).2 + 1) j) ∨
     (scanEnd exampleNest 6 ((get_param_value exampleNest 6 0).2 + 1) 1 < 6 ∧
      nestMatch exampleNest ((get_param_value exampleNest 6 0).2 + 1)
        (scanEnd exampleNest 6 ((get_param_value exampleNest 6 0).2 + 1) 1) ∧
      ∀ j, (get_param_value exampleNest 6 0).2 + 1 ≤ j →
        j < scanEnd exampleNest 6 ((get_param_value exampleNest 6 0).2 + 1) 1 →
        ¬ nestMatch exampleNest ((get_param_value exampleNest 6 0).2 + 1) j)) ∧
    execRun exampleNest 6 0 =
      (List.replicate
          (if (get_param_value exampleNest 6 0).1 < 0 then 1000
           else (get_param_value exampleNest 6 0).1.toNat)
          (if 0 < scanEnd exampleNest 6 ((get_param_value exampleNest 6 0).2 + 1) 1 -
                ((get_param_value exampleNest 6 0).2 + 1) then
             execRun ((exampleNest.drop ((get_param_value exampleNest 6 0).2 + 1)).take
                 (scanEnd exampleNest 6 ((get_param_value exampleNest 6 0).2 + 1) 1 -
                  ((get_param_value exampleNest 6 0).2 + 1)))
               (scanEnd exampleNest 6 ((get_param_value exampleNest 6 0).2 + 1) 1 -
                ((get_param_value exampleNest 6 0).2 + 1)) 0
           else [])).flatten ++
        execRun exampleNest 6
          (scanEnd exampleNest 6 ((get_param_value exampleNest 6 0).2 + 1) 1 + 1) :=
  repeat_nesting exampleNest 6 0 (by decide) (by decide)

/-- Unfolding one non-`Repeat`, non-`End` iteration of the interpreter:
its effects, then the rest of the program from the returned counter. -/
theorem execRun_cont (blocks : List BlockData) (count pc : Nat) (hpc : pc < count)
    (evs : List Ev) (nx : Nat)
    (hstep : execStep blocks count pc = .cont evs nx) :
    execRun blocks count pc = evs ++ execRun blocks count nx := by
  rw [execRun, dif_pos hpc]
  split
  · next evs' heq =>
      rw [hstep] at heq
      cases heq
  · next evs' nx' heq =>
      rw [hstep] at heq
      injection heq with h1 h2
      subst h1
      subst h2
      rfl
  · next sp ep it heq =>
      rw [hstep] at heq
      cases heq

/-- Dispatch at a movement block: its effects with the program counter
advanced past whatever `get_param_value` consumed. -/
theorem execStep_movement (blocks : List BlockData) (count pc : Nat)
    (hmv : typeAt blocks pc = BLOCK_FORWARD ∨ typeAt blocks pc = BLOCK_BACKWARD ∨
           typeAt blocks pc = BLOCK_TURN_RIGHT ∨ typeAt blocks pc = BLOCK_TURN_LEFT) :
    execStep blocks count pc =
      .cont (stepEvents blocks count pc) ((get_param_value blocks count pc).2 + 1) := by
  unfold execStep
  rcases hmv with h | h | h | h <;>
    rw [if_neg (by rw [h]; decide), if_neg (by rw [h]; decide),
        if_pos (show consumesParam (typeAt blocks pc) = true by rw [h]; decide)]

/-- The effects of a `Forward` block: its eye cues and the motor drive
repeated per the resolved count. -/
theorem stepEvents_forward (blocks : List BlockData) (count pc : Nat)
    (h : typeAt blocks pc = BLOCK_FORWARD) :
    stepEvents blocks count pc =
      [Ev.expr EYES_FOCUSED, Ev.look EYES_UP] ++
        do_move Ev.forwardOn (get_param_value blocks count pc).1 := by
  unfold stepEvents
  rw [if_neg (by rw [h]; decide), if_neg (by rw [h]; decide), if_pos h]

/-- A flat-mapped movement loop drives the motor once per iteration,
whatever the inter-repetition pause cutoff is. -/
theorem count_move_chunks (n c : Nat) :
    ((List.range n).flatMap fun i =>
        [Ev.forwardOn MOTOR_DEFAULT_SPEED, Ev.sleep DEFAULT_MOVE_MS, Ev.motorStop] ++
        (if i < c then [Ev.sleep 100] else [])).count
      (Ev.forwardOn MOTOR_DEFAULT_SPEED) = n := by
  induction n with
  | zero => rfl
  | succ n ih =>
    rw [List.range_succ, List.flatMap_append, List.count_append, ih]
    by_cases hc : n < c <;> simp [hc, List.count_cons]

/-- `do_move` with a nonnegative resolved count `k` drives the motor
exactly `k` times. -/
theorem do_move_count (k : Int) (hk : 0 ≤ k) :
    (do_move Ev.forwardOn k).count (Ev.forwardOn MOTOR_DEFAULT_SPEED) = k.toNat := by
  unfold do_move
  rw [if_neg (by omega)]
  exact count_move_chunks k.toNat (k.toNat - 1)

/-- C4: the one-position parameter lookahead of movement blocks — a
recognized repeat-count parameter right after the block is consumed (the
program counter advances past both) and supplies the count 2/3/4 or the
forever sentinel −1; any other following block, or no following block,
leaves the counter alone and defaults the count to 1; the emitted
effects repeat the drive exactly the resolved number of times. -/
theorem param_lookahead (blocks : List BlockData) (count pc : Nat)
    (hpc : pc < count)
    (hmv : typeAt blocks pc = BLOCK_FORWARD ∨ typeAt blocks pc = BLOCK_BACKWARD ∨
           typeAt blocks pc = BLOCK_TURN_RIGHT ∨ typeAt blocks pc = BLOCK_TURN_LEFT) :
    (pc + 1 < count →
      (typeAt blocks (pc + 1) = BLOCK_PARAM_2 →
        get_param_value blocks count pc = (2, pc + 1)) ∧
      (typeAt blocks (pc + 1) = BLOCK_PARAM_3 →
        get_param_value blocks count pc = (3, pc + 1)) ∧
      (typeAt blocks (pc + 1) = BLOCK_PARAM_4 →
        get_param_value blocks count pc = (4, pc + 1)) ∧
      (typeAt blocks (pc + 1) = BLOCK_PARAM_FOREVER →
        get_param_value blocks count pc = (-1, pc + 1))) ∧
    (pc + 1 < count →
      typeAt blocks (pc + 1) ≠ BLOCK_PARAM_2 →
      typeAt blocks (pc + 1) ≠ BLOCK_PARAM_3 →
      typeAt blocks (pc + 1) ≠ BLOCK_PARAM_4 →
      typeAt blocks (pc + 1) ≠ BLOCK_PARAM_FOREVER →
      get_param_value blocks count pc = (1, pc)) ∧
    (count ≤ pc + 1 → get_param_value blocks count pc = (1, pc)) ∧
    execRun blocks count pc =
      stepEvents blocks count pc ++
        execRun blocks count ((get_param_value blocks count pc).2 + 1) ∧
    (typeAt blocks pc = BLOCK_FORWARD →
      stepEvents blocks count pc =
        [Ev.expr EYES_FOCUSED, Ev.look EYES_UP] ++
          do_move Ev.forwardOn (get_param_value blocks count pc).1) ∧
    (∀ k : Int, 0 ≤ k →
      (do_move Ev.forwardOn k).count (Ev.forwardOn MOTOR_DEFAULT_SPEED) = k.toNat) := by
  refine ⟨?_, ?_, ?_, ?_, ?_, ?_⟩
  · intro hlt
    refine ⟨fun h => ?_, fun h => ?_, fun h => ?_, fun h => ?_⟩ <;>
      simp [get_param_value, Nat.not_le.mpr hlt, h, BLOCK_PARAM_2, BLOCK_PARAM_3,
        BLOCK_PARAM_4, BLOCK_PARAM_FOREVER]
  · intro hlt h2 h3 h4 h5
    simp [get_param_value, Nat.not_le.mpr hlt, h2, h3, h4, h5]
  · intro hge
    simp [get_param_value, hge]
  · exact execRun_cont blocks count pc hpc _ _ (execStep_movement blocks count pc hmv)
  · exact stepEvents_forward blocks count pc
  · exact do_move_count

/-- Witness: the lookahead law at `[Forward, Param3]`. -/
theorem param_lookahead_witness :
    (0 + 1 < 2 →
      (typeAt exampleFwd (0 + 1) = BLOCK_PARAM_2 →
        get_param_value exampleFwd 2 0 = (2, 0 + 1)) ∧
      (typeAt exampleFwd (0 + 1) = BLOCK_PARAM_3 →
        get_param_value exampleFwd 2 0 = (3, 0 + 1)) ∧
      (typeAt exampleFwd (0 + 1) = BLOCK_PARAM_4 →
        get_param_value exampleFwd 2 0 = (4, 0 + 1)) ∧
      (typeAt exampleFwd (0 + 1) = BLOCK_PARAM_FOREVER →
        get_param_value exampleFwd 2 0 = (-1, 0 + 1))) ∧
    (0 + 1 < 2 →
      typeAt exampleFwd (0 + 1) ≠ BLOCK_PARAM_2 →
      typeAt exampleFwd (0 + 1) ≠ BLOCK_PARAM_3 →
      typeAt exampleFwd (0 + 1) ≠ BLOCK_PARAM_4 →
      typeAt exampleFwd (0 + 1) ≠ BLOCK_PARAM_FOREVER →
      get_param_value exampleFwd 2 0 = (1, 0)) ∧
    (2 ≤ 0 + 1 → get_param_value exampleFwd 2 0 = (1, 0)) ∧
    execRun exampleFwd 2 0 =
      stepEvents exampleFwd 2 0 ++
        execRun exampleFwd 2 ((get_param_value exampleFwd 2 0).2 + 1) ∧
    (typeAt exampleFwd 0 = BLOCK_FORWARD →
      stepEvents exampleFwd 2 0 =
        [Ev.expr EYES_FOCUSED, Ev.look EYES_UP] ++
          do_move Ev.forwardOn (get_param_value exampleFwd 2 0).1) ∧
    (∀ k : Int, 0 ≤ k →
      (do_move Ev.forwardOn k).count (Ev.forwardOn MOTOR_DEFAULT_SPEED) = k.toNat) :=
  param_lookahead exampleFwd 2 0 (by decide) (Or.inl (by decide))

/-- Unfolding the early-exit `BLOCK_END` iteration. -/
theorem execRun_halt (blocks : List BlockData) (count pc : Nat) (hpc : pc < count)
    (evs : List Ev) (hstep : execStep blocks count pc = .halt evs) :
    execRun blocks count pc = evs := by
  rw [execRun, dif_pos hpc]
  split
  · next evs' heq =>
      rw [hstep] at heq
      injection heq with h1
      subst h1
      rfl
  · next evs' nx' heq =>
      rw [hstep] at heq
      cases heq
  · next sp ep it heq =>
      rw [hstep] at heq
      cases heq

/-- Unfolding a `BLOCK_REPEAT` iteration given its dispatch. -/
theorem execRun_loop (blocks : List BlockData) (count pc : Nat) (hpc : pc < count)
    (sp ep it : Nat) (hstep : execStep blocks count pc = .loop sp ep it) :
    execRun blocks count pc =
      (List.replicate it
          (if 0 < ep - sp then
             execRun ((blocks.drop sp).take (ep - sp)) (ep - sp) 0
           else [])).flatten ++ execRun blocks count (ep + 1) := by
  rw [execRun, dif_pos hpc]
  split
  · next evs' heq =>
      rw [hstep] at heq
      cases heq
  · next evs' nx' heq =>
      rw [hstep] at heq
      cases heq
  · next sp' ep' it' heq =>
      rw [hstep] at heq
      injection heq with h1 h2 h3
      subst h1
      subst h2
      subst h3
      rfl

/-- One-step unfolding of the budgeted interpreter. -/
theorem execRunF_succ (fuel : Nat) (blocks : List BlockData) (count pc : Nat) :
    execRunF (fuel + 1) blocks count pc =
      (if pc < count then
        match execStep blocks count pc with
        | .halt evs => some evs
        | .cont evs next => (execRunF fuel blocks count next).map (fun r => evs ++ r)
        | .loop startPc endPc iters =>
            (if 0 < endPc - startPc then
               execRunF fuel ((blocks.drop startPc).take (endPc - startPc))
                 (endPc - startPc) 0
             else some []).bind fun bodyEvs =>
              (execRunF fuel blocks count (endPc + 1)).map fun rest =>
                (List.replicate iters bodyEvs).flatten ++ rest
      else some [Ev.motorStop, Ev.expr EYES_NORMAL, Ev.look EYES_CENTER]) := rfl

/-- One more unit of budget never changes a successful run. -/
theorem execRunF_mono (fuel : Nat) :
    ∀ (blocks : List BlockData) (count pc : Nat) (r : List Ev),
      execRunF fuel blocks count pc = some r →
      execRunF (fuel + 1) blocks count pc = some r := by
  induction fuel with
  | zero => intro _ _ _ _ h; cases h
  | succ fuel ih =>
    intro blocks count pc r h
    rw [execRunF_succ] at h ⊢
    by_cases hpc : pc < count
    · rw [if_pos hpc] at h ⊢
      cases hstep : execStep blocks count pc with
      | halt evs =>
          rw [hstep] at h
          exact h
      | cont evs nx =>
          rw [hstep] at h
          dsimp only at h ⊢
          rcases Option.map_eq_some'.mp h with ⟨a, ha, rfl⟩
          rw [ih _ _ _ _ ha]
          rfl
      | loop sp ep it =>
          rw [hstep] at h
          dsimp only at h ⊢
          rcases Option.bind_eq_some.mp h with ⟨b1, hb1, hmap⟩
          rcases Option.map_eq_some'.mp hmap with ⟨b2, hb2, rfl⟩
          have hb1' : (if 0 < ep - sp then
              execRunF (fuel + 1) ((blocks.drop sp).take (ep - sp)) (ep - sp) 0
            else some ([] : List Ev)) = some b1 := by
            by_cases hlen : 0 < ep - sp
            · rw [if_pos hlen] at hb1 ⊢
              exact ih _ _ _ _ hb1
            · rw [if_neg hlen] at hb1 ⊢
              exact hb1
          rw [hb1', ih _ _ _ _ hb2]
          rfl
    · rw [if_neg hpc] at h ⊢
      exact h

/-- Budget monotonicity. -/
theorem execRunF_mono_le (f : Nat) : ∀ g, f ≤ g →
    ∀ (blocks : List BlockData) (count pc : Nat) (r : List Ev),
      execRunF f blocks count pc = some r → execRunF g blocks count pc = some r := by
  intro g hg
  induction g, hg using Nat.le_induction with
  | base => exact fun _ _ _ _ h => h
  | succ g _ ih => exact fun b c p r h => execRunF_mono g b c p r (ih b c p r h)

/-- Some finite budget always suffices, and the budgeted run returns the
trace of the total interpreter: the C recursion terminates on every
input.  The measure `count + (count − pc)` shrinks at every frame: the
while-loop continuation keeps `count` and decreases `count − pc`, and
the recursive body execution runs on a strictly shorter sub-program. -/
theorem execRunF_exists (m : Nat) :
    ∀ (blocks : List BlockData) (count pc : Nat), count + (count - pc) ≤ m →
      ∃ fuel, execRunF fuel blocks count pc = some (execRun blocks count pc) := by
  induction m using Nat.strong_induction_on with
  | _ m ih =>
    intro blocks count pc hm
    by_cases hpc : pc < count
    · cases hstep : execStep blocks count pc with
      | halt evs =>
          refine ⟨1, ?_⟩
          rw [execRunF_succ, if_pos hpc, hstep,
            execRun_halt blocks count pc hpc evs hstep]
      | cont evs nx =>
          have hlt := execStep_cont_lt blocks count pc evs nx hstep
          obtain ⟨f, hf⟩ := ih (count + (count - nx)) (by omega) blocks count nx
            (Nat.le_refl _)
          refine ⟨f + 1, ?_⟩
          rw [execRunF_succ, if_pos hpc, hstep]
          dsimp only
          rw [hf, execRun_cont blocks count pc hpc evs nx hstep]
          rfl
      | loop sp ep it =>
          obtain ⟨hb1, hb2, hb3, hb4⟩ := execStep_loop_bounds blocks count pc sp ep it hpc hstep
          obtain ⟨f2, hf2⟩ := ih (count + (count - (ep + 1))) (by omega) blocks count (ep + 1)
            (Nat.le_refl _)
          have hbody : ∃ f1, (if 0 < ep - sp then
              execRunF f1 ((blocks.drop sp).take (ep - sp)) (ep - sp) 0
            else some ([] : List Ev)) = some (if 0 < ep - sp then
              execRun ((blocks.drop sp).take (ep - sp)) (ep - sp) 0 else []) := by
            by_cases hlen : 0 < ep - sp
            · obtain ⟨f1, hf1⟩ := ih ((ep - sp) + (ep - sp)) (by omega)
                ((blocks.drop sp).take (ep - sp)) (ep - sp) 0 (by omega)
              exact ⟨f1, by rw [if_pos hlen, if_pos hlen, hf1]⟩
            · exact ⟨1, by rw [if_neg hlen, if_neg hlen]⟩
          obtain ⟨f1, hf1⟩ := hbody
          refine ⟨max f1 f2 + 1, ?_⟩
          have hf1' : (if 0 < ep - sp then
              execRunF (max f1 f2) ((blocks.drop sp).take (ep - sp)) (ep - sp) 0
            else some ([] : List Ev)) = some (if 0 < ep - sp then
              execRun ((blocks.drop sp).take (ep - sp)) (ep - sp) 0 else []) := by
            by_cases hlen : 0 < ep - sp
            · rw [if_pos hlen] at hf1 ⊢
              exact execRunF_mono_le f1 (max f1 f2) (Nat.le_max_left _ _) _ _ _ _ hf1
            · rw [if_neg hlen] at hf1 ⊢
              exact hf1
          have hf2' := execRunF_mono_le f2 (max f1 f2) (Nat.le_max_right _ _) _ _ _ _ hf2
          rw [execRunF_succ, if_pos hpc, hstep]
          dsimp only
          rw [hf1']
          rw [Option.some_bind]
          rw [hf2', execRun_loop blocks count pc hpc sp ep it hstep]
          rfl
    · refine ⟨1, ?_⟩
      rw [execRunF_succ, if_neg hpc, execRun, dif_neg hpc]

/-- One-step unfolding of the `uint8`-faithful budgeted interpreter. -/
theorem execRunW_succ (fuel : Nat) (blocks : List BlockData) (count pc : Nat) :
    execRunW (fuel + 1) blocks count pc =
      (if pc < count then
        match execStep blocks count pc with
        | .halt evs => some evs
        | .cont evs next =>
            (execRunW fuel blocks count (next % 256)).map (fun r => evs ++ r)
        | .loop startPc endPc iters =>
            (if 0 < endPc - startPc then
               execRunW fuel ((blocks.drop startPc).take (endPc - startPc))
                 (endPc - startPc) 0
             else some []).bind fun bodyEvs =>
              (execRunW fuel blocks count ((endPc + 1) % 256)).map fun rest =>
                (List.replicate iters bodyEvs).flatten ++ rest
      else some [Ev.motorStop, Ev.expr EYES_NORMAL, Ev.look EYES_CENTER]) := rfl

theorem typeAt_wrapProg (j : Nat) (h : j < 255) : typeAt wrapProg j = BLOCK_REPEAT := by
  unfold typeAt wrapProg
  rw [List.getD_eq_getElem?_getD, List.getElem?_replicate, if_pos h]
  rfl

theorem get_param_value_wrapProg : get_param_value wrapProg 255 0 = (1, 0) := by
  have h1 := typeAt_wrapProg 1 (by norm_num)
  simp [get_param_value, h1, BLOCK_REPEAT, BLOCK_PARAM_2, BLOCK_PARAM_3, BLOCK_PARAM_4,
    BLOCK_PARAM_FOREVER]

theorem scanEnd_wrapProg : scanEnd wrapProg 255 1 1 = 255 := by
  rcases scanEnd_char wrapProg 255 1 (by norm_num) 1 with ⟨h1, -⟩ | ⟨h1, ⟨h2, -⟩, -⟩
  · exact h1
  · exfalso
    have ht := typeAt_wrapProg (scanEnd wrapProg 255 1 1) h1
    rw [ht] at h2
    exact absurd h2 (by decide)

theorem execStep_wrapProg : execStep wrapProg 255 0 = .loop 1 255 1 := by
  rw [execStep_repeat wrapProg 255 0 (typeAt_wrapProg 0 (by norm_num))]
  rw [get_param_value_wrapProg]
  norm_num [scanEnd_wrapProg]

/-- No call budget whatsoever completes the wrap run. -/
theorem execRunW_wrapProg_none : ∀ fuel : Nat, execRunW fuel wrapProg 255 0 = none := by
  intro fuel
  induction fuel with
  | zero => rfl
  | succ fuel ih =>
    rw [execRunW_succ, if_pos (by norm_num), execStep_wrapProg]
    dsimp only
    cases hbody : (if 0 < 255 - 1 then
        execRunW fuel ((wrapProg.drop 1).take (255 - 1)) (255 - 1) 0
      else some ([] : List Ev)) with
    | none => rfl
    | some b =>
        rw [Option.some_bind]
        have h0 : (255 + 1) % 256 = 0 := by norm_num
        rw [h0, ih]
        rfl

/-- C9 counterexample: with `count = 255` (the maximal `uint8_t` count)
and a program whose `Repeat` never finds a closer, the scan falls back
to 255, `pc++` wraps to 0, and the C while loop never exits — the run
at this concrete input completes under no call budget at all, refuting
termination "for every block array and count". -/
theorem executor_wrap_diverges :
    ¬ ∃ fuel : Nat, execRunW fuel wrapProg 255 0 =
        some (execRun wrapProg 255 0) := by
  rintro ⟨fuel, hf⟩
  rw [execRunW_wrapProg_none fuel] at hf
  cases hf

/-- Every `cont` dispatch advances the program counter by at most 2. -/
theorem execStep_cont_le (blocks : List BlockData) (count pc : Nat)
    (evs : List Ev) (nx : Nat) (h : execStep blocks count pc = .cont evs nx) :
    nx ≤ pc + 2 := by
  have hp := get_param_value_snd blocks count pc
  unfold execStep at h
  repeat' split at h
  all_goals cases h
  all_goals omega

/-- For every count a `uint8_t` program can actually have below the
wrap threshold, the faithful interpreter agrees with the idealized
one: the program counter never reaches 256. -/
theorem execRunW_eq_execRunF (fuel : Nat) :
    ∀ (blocks : List BlockData) (count pc : Nat), count ≤ 254 →
      execRunW fuel blocks count pc = execRunF fuel blocks count pc := by
  induction fuel with
  | zero => intro _ _ _ _; rfl
  | succ fuel ih =>
    intro blocks count pc hcount
    rw [execRunW_succ, execRunF_succ]
    by_cases hpc : pc < count
    · rw [if_pos hpc, if_pos hpc]
      cases hstep : execStep blocks count pc with
      | halt evs => rfl
      | cont evs nx =>
          dsimp only
          have hle := execStep_cont_le blocks count pc evs nx hstep
          have hmod : nx % 256 = nx := Nat.mod_eq_of_lt (by omega)
          rw [hmod, ih blocks count nx hcount]
      | loop sp ep it =>
          dsimp only
          obtain ⟨h1, h2, h3, h4⟩ := execStep_loop_bounds blocks count pc sp ep it hpc hstep
          have hmod : (ep + 1) % 256 = ep + 1 := Nat.mod_eq_of_lt (by omega)
          have hbody : (if 0 < ep - sp then
              execRunW fuel ((blocks.drop sp).take (ep - sp)) (ep - sp) 0
            else some ([] : List Ev)) = (if 0 < ep - sp then
              execRunF fuel ((blocks.drop sp).take (ep - sp)) (ep - sp) 0
            else some []) := by
            by_cases hlen : 0 < ep - sp
            · rw [if_pos hlen, if_pos hlen, ih _ _ _ (by omega)]
            · rw [if_neg hlen, if_neg hlen]
          rw [hbody]
          congr 1
          funext bodyEvs
          rw [hmod, ih blocks count (ep + 1) hcount]
    · rw [if_neg hpc, if_neg hpc]

/-- `get_param_value` only ever resolves 1, 2, 3, 4 or the forever
sentinel −1. -/
theorem get_param_value_fst (blocks : List BlockData) (count pc : Nat) :
    (get_param_value blocks count pc).1 = 1 ∨ (get_param_value blocks count pc).1 = 2 ∨
    (get_param_value blocks count pc).1 = 3 ∨ (get_param_value blocks count pc).1 = 4 ∨
    (get_param_value blocks count pc).1 = -1 := by
  simp only [get_param_value]
  repeat' split
  all_goals simp

/-- The iteration count of a `loop` dispatch is the resolved parameter
with the forever sentinel replaced by the fixed 1000 bound. -/
theorem execStep_loop_iters (blocks : List BlockData) (count pc sp ep it : Nat)
    (h : execStep blocks count pc = .loop sp ep it) :
    it = if (get_param_value blocks count pc).1 < 0 then 1000
         else (get_param_value blocks count pc).1.toNat := by
  unfold execStep at h
  repeat' split at h
  all_goals cases h
  all_goals first
    | rw [if_pos (by assumption)]
    | rw [if_neg (by assumption)]

/-- C9 (amended): the interpreter terminates on every block array and
every count up to 254 — every count the transport can deliver, and
every `uint8_t` count at which the post-switch `pc++` cannot wrap.  The
depth-scan always lands between its start and `count`; every recursive
body invocation runs on a sub-range that starts after `pc` and is
strictly shorter than the whole program; the iteration count is finite
(forever is capped at exactly 1000); the idealized recursion, modeled
with an explicit call budget, succeeds on some finite budget with the
trace of the total interpreter; and the `uint8`-faithful recursion does
the same whenever `count ≤ 254` (at `count = 255` it can diverge, see
the wrap counterexample). -/
theorem executor_terminates :
    (∀ (blocks : List BlockData) (count s : Nat) (d : Int), s ≤ count →
      s ≤ scanEnd blocks count s d ∧ scanEnd blocks count s d ≤ count) ∧
    (∀ (blocks : List BlockData) (count pc sp ep it : Nat), pc < count →
      execStep blocks count pc = .loop sp ep it →
      pc + 1 ≤ sp ∧ sp ≤ ep ∧ ep ≤ count ∧ ep - sp < count ∧ it ≤ 1000 ∧
      ((get_param_value blocks count pc).1 < 0 → it = 1000)) ∧
    (∀ (blocks : List BlockData) (count pc : Nat),
      ∃ fuel, execRunF fuel blocks count pc = some (execRun blocks count pc)) ∧
    (∀ (blocks : List BlockData) (count pc : Nat), count ≤ 254 →
      ∃ fuel, execRunW fuel blocks count pc = some (execRun blocks count pc)) := by
  refine ⟨?_, ?_, ?_, ?_⟩
  · intro blocks count s d hs
    exact ⟨scanEnd_ge blocks count s d hs, scanEnd_le blocks count s d⟩
  · intro blocks count pc sp ep it hpc hstep
    obtain ⟨h1, h2, h3, h4⟩ := execStep_loop_bounds blocks count pc sp ep it hpc hstep
    have hit := execStep_loop_iters blocks count pc sp ep it hstep
    have hv := get_param_value_fst blocks count pc
    refine ⟨h1, h3, h4, by omega, ?_, ?_⟩
    · rw [hit]
      rcases hv with h | h | h | h | h <;> rw [h] <;> norm_num
    · intro hneg
      rw [hit, if_pos hneg]
  · intro blocks count pc
    exact execRunF_exists (count + (count - pc)) blocks count pc (Nat.le_refl _)
  · intro blocks count pc hcount
    obtain ⟨f, hf⟩ := execRunF_exists (count + (count - pc)) blocks count pc (Nat.le_refl _)
    exact ⟨f, by rw [execRunW_eq_execRunF f blocks count pc hcount]; exact hf⟩

/-- Witness: the termination facts at the example nest program — scan
bounds from position 1, loop-range bounds for the outer `Repeat`, and a
finite budget for the whole run. -/
theorem executor_terminates_witness :
    (1 ≤ scanEnd exampleNest 6 1 1 ∧ scanEnd exampleNest 6 1 1 ≤ 6) ∧
    (0 + 1 ≤ (get_param_value exampleNest 6 0).2 + 1 ∧
     (get_param_value exampleNest 6 0).2 + 1 ≤
       scanEnd exampleNest 6 ((get_param_value exampleNest 6 0).2 + 1) 1 ∧
     scanEnd exampleNest 6 ((get_param_value exampleNest 6 0).2 + 1) 1 ≤ 6 ∧
     scanEnd exampleNest 6 ((get_param_value exampleNest 6 0).2 + 1) 1 -
       ((get_param_value exampleNest 6 0).2 + 1) < 6 ∧
     (if (get_param_value exampleNest 6 0).1 < 0 then 1000
      else (get_param_value exampleNest 6 0).1.toNat) ≤ 1000 ∧
     ((get_param_value exampleNest 6 0).1 < 0 →
       (if (get_param_value exampleNest 6 0).1 < 0 then 1000
        else (get_param_value exampleNest 6 0).1.toNat) = 1000)) ∧
    (∃ fuel, execRunF fuel exampleNest 6 0 = some (execRun exampleNest 6 0)) ∧
    (∃ fuel, execRunW fuel exampleNest 6 0 = some (execRun exampleNest 6 0)) :=
  ⟨executor_terminates.1 exampleNest 6 1 1 (by decide),
   executor_terminates.2.1 exampleNest 6 0 ((get_param_value exampleNest 6 0).2 + 1)
     (scanEnd exampleNest 6 ((get_param_value exampleNest 6 0).2 + 1) 1)
     (if (get_param_value exampleNest 6 0).1 < 0 then 1000
      else (get_param_value exampleNest 6 0).1.toNat)
     (by decide) (execStep_repeat exampleNest 6 0 (by decide)),
   executor_terminates.2.2.1 exampleNest 6 0,
   executor_terminates.2.2.2 exampleNest 6 0 (by decide)⟩

end Bloco
